import Mathlib

/-!
Shallow embedding of the jira-wiki-to-ADF conversion engine
(`src/jira_wiki_to_adf_converter.py`, class `JiraWikiToADFConverter`, and the
`parse_code_block` routine of `src/wiki2adf.py`, class `JiraWikiToADF`).

Text is modelled as `List Char`.  Each compiled regular expression of
`_compile_patterns` is translated into an anchored matcher (returning the
capture groups and the matched length); `re.search` is the leftmost scan
`searchFrom`.  Loops of the Python source become fuel-indexed structural
recursions, with the fuel chosen at each entry point to dominate the number
of iterations (every iteration of every loop consumes at least one character
or line, so the length of the input is always enough fuel).
-/

abbrev Str := List Char

/-- Whitespace set of Python `str.strip` / `\s` (ASCII range). -/
def isPySpace (c : Char) : Bool :=
  c == ' ' || c == '\t' || c == '\n' || c == '\r' || c == '\x0b' || c == '\x0c'

/-- Python `str.strip()`. -/
def pyStrip (l : Str) : Str :=
  ((l.dropWhile isPySpace).reverse.dropWhile isPySpace).reverse

/-- Python `str.rstrip('\n')`. -/
def pyRstripNl (l : Str) : Str :=
  (l.reverse.dropWhile (fun c => c == '\n')).reverse

/-- Index of the leftmost occurrence of `pat` as a contiguous sublist. -/
def findSub (pat : Str) : Str → Option Nat
  | [] => if pat.isPrefixOf ([] : Str) then some 0 else none
  | c :: rest =>
    if pat.isPrefixOf (c :: rest) then some 0
    else (findSub pat rest).map (· + 1)

/-- Python `str.split(sep)` for a non-empty separator, fuelled. -/
def pySplitAux (sep : Str) : Nat → Str → List Str
  | 0, l => [l]
  | fuel + 1, l =>
    match findSub sep l with
    | some i => l.take i :: pySplitAux sep fuel (l.drop (i + sep.length))
    | none => [l]

def pySplit (sep l : Str) : List Str := pySplitAux sep (l.length + 1) l

/-- Python `sep.join(parts)` (used with `'\n'`). -/
def joinSep (sep : Str) : List Str → Str
  | [] => []
  | [l] => l
  | l :: l2 :: rest => l ++ sep ++ joinSep sep (l2 :: rest)

/-- Python `text.split('\n')`. -/
def splitNl : Str → List Str
  | [] => [[]]
  | c :: rest =>
    let r := splitNl rest
    if c == '\n' then [] :: r
    else (c :: r.headI) :: r.tail

/-- Line-ending normalization of `convert_text`:
`replace('\r\n', '\n').replace('\r', '\n')`. -/
def replaceCRLF : Str → Str
  | '\r' :: '\n' :: rest => '\n' :: replaceCRLF rest
  | c :: rest => c :: replaceCRLF rest
  | [] => []

def normalizeNewlines (s : Str) : Str :=
  (replaceCRLF s).map (fun c => if c == '\r' then '\n' else c)

def isHexDigit (c : Char) : Bool :=
  c.isDigit || (decide ('a' ≤ c) && decide (c ≤ 'f')) || (decide ('A' ≤ c) && decide (c ≤ 'F'))

def isAsciiLetter (c : Char) : Bool := c.isAlpha

def isAlnumChar (c : Char) : Bool := c.isAlphanum

/-! ## Anchored matchers for the compiled inline patterns

Each matcher decides whether the pattern matches at the very start of the
given text and returns its capture groups together with the total matched
length.  The backtracking behaviour of the Python regexes is resolved
statically: for a pattern such as `\*([^*\n]+)\*` the greedy character class
excludes the delimiter, so the group is exactly the maximal run and the
match succeeds exactly when the character after the run is the delimiter. -/

/-- Patterns `\*(...)\*`, `_(...)_`, `\+(...)\+`, `-(...)-`, `\^(...)\^`,
`~(...)~`, `!(...)!`: one-character delimiter `d`, group `[^d\n]+`. -/
def matchStyle1 (d : Char) (s : Str) : Option (Str × Nat) :=
  match s with
  | c :: rest =>
    if c == d then
      let run := rest.takeWhile (fun x => x != d && x != '\n')
      let rest2 := rest.dropWhile (fun x => x != d && x != '\n')
      if run.isEmpty then none
      else
        match rest2 with
        | c2 :: _ => if c2 == d then some (run, run.length + 2) else none
        | [] => none
    else none
  | [] => none

/-- Pattern `\?\?([^?\n]+)\?\?`. -/
def matchCitationAt (s : Str) : Option (Str × Nat) :=
  match s with
  | '?' :: '?' :: rest =>
    let run := rest.takeWhile (fun x => x != '?' && x != '\n')
    let rest2 := rest.dropWhile (fun x => x != '?' && x != '\n')
    if run.isEmpty then none
    else
      match rest2 with
      | '?' :: '?' :: _ => some (run, run.length + 4)
      | _ => none
  | _ => none

/-- Pattern `\{\{([^}]+)\}\}` (monospace). -/
def matchMonospaceAt (s : Str) : Option (Str × Nat) :=
  match s with
  | '{' :: '{' :: rest =>
    let run := rest.takeWhile (fun x => x != '}')
    let rest2 := rest.dropWhile (fun x => x != '}')
    if run.isEmpty then none
    else
      match rest2 with
      | '}' :: '}' :: _ => some (run, run.length + 4)
      | _ => none
  | _ => none

/-- Pattern `\[([^|\]]+)\|([^\]]+)\]` (link with text). -/
def matchLinkWithTextAt (s : Str) : Option (Str × Str × Nat) :=
  match s with
  | '[' :: rest =>
    let r1 := rest.takeWhile (fun x => x != '|' && x != ']')
    let rest2 := rest.dropWhile (fun x => x != '|' && x != ']')
    if r1.isEmpty then none
    else
      match rest2 with
      | '|' :: rest3 =>
        let r2 := rest3.takeWhile (fun x => x != ']')
        let rest4 := rest3.dropWhile (fun x => x != ']')
        if r2.isEmpty then none
        else
          match rest4 with
          | ']' :: _ => some (r1, r2, r1.length + r2.length + 3)
          | _ => none
      | _ => none
  | _ => none

/-- Pattern `\[([^\]]+)\]` (simple link). -/
def matchLinkSimpleAt (s : Str) : Option (Str × Nat) :=
  match s with
  | '[' :: rest =>
    let r := rest.takeWhile (fun x => x != ']')
    let rest2 := rest.dropWhile (fun x => x != ']')
    if r.isEmpty then none
    else
      match rest2 with
      | ']' :: _ => some (r, r.length + 2)
      | _ => none
  | _ => none

/-- Pattern `\\\\` (hard line break). -/
def matchLineBreakAt (s : Str) : Option Nat :=
  match s with
  | '\\' :: '\\' :: _ => some 2
  | _ => none

/-- Pattern `\{color:(#?[a-fA-F0-9]{3,6}|[a-zA-Z]+)\}(.*?)\{color\}` with
DOTALL.  Returns (captured color value, interior, matched length). -/
def colorCapK (t : Str) : Option (Str × Nat) :=
  let h : Nat := if t.head? = some '#' then 1 else 0
  let hexRun := (t.drop h).takeWhile isHexDigit
  let c := hexRun.length
  if decide (3 ≤ c) && decide (c ≤ 6) && ((t.drop (h + c)).head? == some '}') then
    some (t.take (h + c), h + c)
  else
    let run := t.takeWhile isAsciiLetter
    if !run.isEmpty && ((t.drop run.length).head? == some '}') then
      some (run, run.length)
    else none

def matchColorAt (s : Str) : Option (Str × Str × Nat) :=
  if ("\x7bcolor:".toList).isPrefixOf s then
    let t := s.drop 7
    match colorCapK t with
    | some (cap, k) =>
      let u := t.drop (k + 1)
      match findSub ("\x7bcolor\x7d".toList) u with
      | some j => some (cap, u.take j, 7 + k + 1 + j + 7)
      | none => none
    | none => none
  else none

/-- Optional-language opener tail of the code pattern: the part matched
right after `\x7bcode`, i.e. `(?::([a-zA-Z0-9]+))?\}`.  Returns the captured
language and the consumed length. -/
def codeOpenK (t : Str) : Option (Option Str × Nat) :=
  if t.head? = some ':' then
    let t2 := t.tail
    let run := t2.takeWhile isAlnumChar
    if !run.isEmpty && ((t2.drop run.length).head? == some '}') then
      some (some run, run.length + 2)
    else none
  else if t.head? = some '}' then some (none, 1)
  else none

/-- Pattern `\{code(?::([a-zA-Z0-9]+))?\}(.*?)\{code\}` with DOTALL.
Returns (optional language, interior, matched length). -/
def matchCodeAt (s : Str) : Option (Option Str × Str × Nat) :=
  if ("\x7bcode".toList).isPrefixOf s then
    let t := s.drop 5
    match codeOpenK t with
    | some (lang, k) =>
      let u := t.drop k
      match findSub ("\x7bcode\x7d".toList) u with
      | some j => some (lang, u.take j, 5 + k + j + 6)
      | none => none
    | none => none
  else none

/-- Pattern `\{noformat\}(.*?)\{noformat\}` with DOTALL. -/
def matchNoformatAt (s : Str) : Option (Str × Nat) :=
  if ("\x7bnoformat\x7d".toList).isPrefixOf s then
    let u := s.drop 10
    match findSub ("\x7bnoformat\x7d".toList) u with
    | some j => some (u.take j, 10 + j + 10)
    | none => none
  else none

/-- Pattern `\{quote\}(.*?)\{quote\}` with DOTALL. -/
def matchQuoteAt (s : Str) : Option (Str × Nat) :=
  if ("\x7bquote\x7d".toList).isPrefixOf s then
    let u := s.drop 7
    match findSub ("\x7bquote\x7d".toList) u with
    | some j => some (u.take j, 7 + j + 7)
    | none => none
  else none

/-- Pattern `\{panel(?::title=([^}]*))?\}(.*?)\{panel\}` with DOTALL. -/
def matchPanelAt (s : Str) : Option (Option Str × Str × Nat) :=
  if ("\x7bpanel".toList).isPrefixOf s then
    let t := s.drop 6
    let openK : Option (Option Str × Nat) :=
      if (":title=".toList).isPrefixOf t then
        let t2 := t.drop 7
        let run := t2.takeWhile (fun x => x != '}')
        if (t2.drop run.length).head? == some '}' then
          some (some run, 7 + run.length + 1)
        else none
      else if t.head? = some '}' then some (none, 1)
      else none
    match openK with
    | some (title, k) =>
      let u := t.drop k
      match findSub ("\x7bpanel\x7d".toList) u with
      | some j => some (title, u.take j, 6 + k + j + 7)
      | none => none
    | none => none
  else none

/-- Leftmost-match search: Python `pattern.search`, trying every start
position from the left.  Returns the start offset and the anchored result. -/
def searchFrom {α : Type} (f : Str → Option α) : Str → Option (Nat × α)
  | [] => (f []).map (fun a => (0, a))
  | c :: rest =>
    match f (c :: rest) with
    | some a => some (0, a)
    | none => (searchFrom f rest).map (fun pa => (pa.1 + 1, pa.2))

/-! ## Line-anchored matchers for the block-level patterns -/

/-- Pattern `^h([1-6])\.\s*(.+)$` via `.match` on a single line. -/
def matchHeadingLine (l : Str) : Option (Nat × Str) :=
  match l with
  | 'h' :: d :: '.' :: rest =>
    if decide ('1' ≤ d) && decide (d ≤ '6') then
      let ws := rest.takeWhile isPySpace
      let r2 := rest.dropWhile isPySpace
      if !r2.isEmpty then some (d.toNat - '0'.toNat, r2)
      else
        match ws.getLast? with
        | some c => some (d.toNat - '0'.toNat, [c])
        | none => none
    else none
  | _ => none

/-- Pattern `^----+$`. -/
def matchRuleLine (l : Str) : Bool :=
  decide (4 ≤ l.length) && l.all (fun c => c == '-')

/-- Pattern `^\|\|(.+)\|\|$`: the group is everything between the outermost
double pipes (greedy `.+` with backtracking). -/
def matchTableHeaderLine (l : Str) : Option Str :=
  if 5 ≤ l.length ∧ l.take 2 = ['|', '|'] ∧ l.drop (l.length - 2) = ['|', '|'] then
    some ((l.drop 2).take (l.length - 4))
  else none

/-- Pattern `^\|([^|].+[^|])\|$`. -/
def matchTableRowLine (l : Str) : Option Str :=
  if 5 ≤ l.length ∧ l.head? = some '|' ∧ l.getLast? = some '|'
      ∧ (l.drop 1).head? ≠ some '|'
      ∧ (l.drop (l.length - 2)).head? ≠ some '|' then
    some ((l.drop 1).take (l.length - 2))
  else none

/-- Pattern `^(\*+)\s+(.+)$` (bullet list item): marker run length and
item text.  The greedy `\s+` backtracks one character when the text would
otherwise be empty. -/
def matchBulletLine (l : Str) : Option (Nat × Str) :=
  let stars := l.takeWhile (fun c => c == '*')
  if stars.isEmpty then none
  else
    let rest := l.drop stars.length
    let ws := rest.takeWhile isPySpace
    let r2 := rest.dropWhile isPySpace
    if ws.isEmpty then none
    else if !r2.isEmpty then some (stars.length, r2)
    else if decide (2 ≤ ws.length) then
      match ws.getLast? with
      | some c => some (stars.length, [c])
      | none => none
    else none

/-- Pattern `^(#+)\s+(.+)$` (numbered list item). -/
def matchNumberedLine (l : Str) : Option (Nat × Str) :=
  let marks := l.takeWhile (fun c => c == '#')
  if marks.isEmpty then none
  else
    let rest := l.drop marks.length
    let ws := rest.takeWhile isPySpace
    let r2 := rest.dropWhile isPySpace
    if ws.isEmpty then none
    else if !r2.isEmpty then some (marks.length, r2)
    else if decide (2 ≤ ws.length) then
      match ws.getLast? with
      | some c => some (marks.length, [c])
      | none => none
    else none

/-! ## ADF node model

Tagged translation of the JSON dictionaries the converter builds: each
constructor corresponds to one `{"type": ...}` shape appearing in the
source.  `mediaSingle` stores the `url` and `alt` attributes of its single
`media` child (both set to the image source in `_process_inline_match`). -/

inductive Mark : Type
  | strong
  | em
  | underlineM
  | strike
  | subsup (sup : Bool)
  | code
  | textColor (color : Str)
  | link (href : Str)
deriving DecidableEq

inductive ADFNode : Type
  | text (s : Str) (marks : List Mark)
  | hardBreak
  | mediaSingle (url : Str) (alt : Str)
  | heading (level : Nat) (content : List ADFNode)
  | rule
  | paragraph (content : List ADFNode)
  | codeBlock (language : Option Str) (content : List ADFNode)
  | blockquote (content : List ADFNode)
  | panel (title : Option Str) (content : List ADFNode)
  | table (rows : List ADFNode)
  | tableRow (cells : List ADFNode)
  | tableHeaderCell (content : List ADFNode)
  | tableCell (content : List ADFNode)
  | bulletList (items : List ADFNode)
  | orderedList (items : List ADFNode)
  | listItem (content : List ADFNode)

/-- Error taxonomy of `ParseErrorType`. -/
inductive ErrType : Type
  | malformed_table
  | unclosed_tag
  | invalid_heading
  | malformed_link
  | invalid_color
  | nested_formatting
  | unknown_macro
  | invalid_list
deriving DecidableEq

/-- Record of `ParseError` as produced by `_add_error`. -/
structure ParseErr : Type where
  errorType : ErrType
  lineNumber : Nat
  column : Nat
  originalText : Str
  parsedAs : Str
  message : Str
deriving DecidableEq

/-- Named colors of `_is_valid_color`. -/
def namedColors : List Str :=
  ["red", "green", "blue", "yellow", "orange", "purple", "pink",
   "brown", "black", "white", "gray", "grey", "cyan", "magenta"].map String.toList

/-- `_is_valid_color`: `#`-prefixed values must be exactly 3 or 6 hex digits;
otherwise the lowercased value must belong to the named set. -/
def isValidColor (c : Str) : Bool :=
  if c.head? = some '#' then
    (decide (c.tail.length = 3) || decide (c.tail.length = 6)) && c.tail.all isHexDigit
  else namedColors.contains (c.map Char.toLower)

/-! ## Inline content parser (`_parse_inline_content`) -/

/-- Identifiers of the sixteen inline patterns, in the precedence order of
the `inline_patterns` list. -/
inductive IPat : Type
  | colorP | linkWithText | linkSimple | image | codeBP | noformatP | quoteP
  | monospace | bold | italic | underlineP | strikethrough | superscript
  | subscript | citation | lineBreak
deriving DecidableEq

/-- Uniform result of one anchored matcher: two capture groups (unused ones
empty) and the matched length. -/
abbrev IMRes := Str × Str × Nat

def anchoredInline (p : IPat) : Str → Option IMRes :=
  match p with
  | .colorP => matchColorAt
  | .linkWithText => matchLinkWithTextAt
  | .linkSimple => fun s => (matchLinkSimpleAt s).map (fun r => (r.1, [], r.2))
  | .image => fun s => (matchStyle1 '!' s).map (fun r => (r.1, [], r.2))
  | .codeBP => fun s => (matchCodeAt s).map (fun r => ([], [], r.2.2))
  | .noformatP => fun s => (matchNoformatAt s).map (fun r => ([], [], r.2))
  | .quoteP => fun s => (matchQuoteAt s).map (fun r => ([], [], r.2))
  | .monospace => fun s => (matchMonospaceAt s).map (fun r => (r.1, [], r.2))
  | .bold => fun s => (matchStyle1 '*' s).map (fun r => (r.1, [], r.2))
  | .italic => fun s => (matchStyle1 '_' s).map (fun r => (r.1, [], r.2))
  | .underlineP => fun s => (matchStyle1 '+' s).map (fun r => (r.1, [], r.2))
  | .strikethrough => fun s => (matchStyle1 '-' s).map (fun r => (r.1, [], r.2))
  | .superscript => fun s => (matchStyle1 '^' s).map (fun r => (r.1, [], r.2))
  | .subscript => fun s => (matchStyle1 '~' s).map (fun r => (r.1, [], r.2))
  | .citation => fun s => (matchCitationAt s).map (fun r => (r.1, [], r.2))
  | .lineBreak => fun s => (matchLineBreakAt s).map (fun n => ([], [], n))

/-- The `inline_patterns` precedence list. -/
def inlineOrder : List IPat :=
  [.colorP, .linkWithText, .linkSimple, .image, .codeBP, .noformatP, .quoteP,
   .monospace, .bold, .italic, .underlineP, .strikethrough, .superscript,
   .subscript, .citation, .lineBreak]

/-- One candidate: pattern, start offset, groups, length. -/
abbrev ICand := IPat × Nat × Str × Str × Nat

/-- Fold of the `for name, pattern in inline_patterns` loop: keep the match
that starts strictly earliest; ties keep the earlier list entry.  The
initial `earliest_pos` is the length of the remaining text. -/
def pickEarlier (total : Nat) (acc : Option ICand) (p : IPat) (s : Str) : Option ICand :=
  match searchFrom (anchoredInline p) s with
  | some (pos, (g1, g2, len)) =>
    match acc with
    | some best => if pos < best.2.1 then some (p, pos, g1, g2, len) else acc
    | none => if pos < total then some (p, pos, g1, g2, len) else none
  | none => acc

def findEarliest (s : Str) : Option ICand :=
  inlineOrder.foldl (fun acc p => pickEarlier s.length acc p s) none

/-- `_process_inline_match`: turn the winning match into an inline node,
possibly recording a diagnostic.  `whole` is `match.group(0)`. -/
def processInlineMatch (ln : Nat) (p : IPat) (g1 g2 whole : Str) :
    ADFNode × List ParseErr :=
  match p with
  | .bold => (.text g1 [.strong], [])
  | .italic => (.text g1 [.em], [])
  | .underlineP => (.text g1 [.underlineM], [])
  | .strikethrough => (.text g1 [.strike], [])
  | .superscript => (.text g1 [.subsup true], [])
  | .subscript => (.text g1 [.subsup false], [])
  | .monospace => (.text g1 [.code], [])
  | .citation => (.text g1 [.em], [])
  | .colorP =>
    if isValidColor g1 then (.text g2 [.textColor g1], [])
    else
      (.text g2 [],
       [{ errorType := .invalid_color, lineNumber := ln, column := 0,
          originalText := whole,
          parsedAs := "Plain text: ".toList ++ g2,
          message := "Invalid color value: ".toList ++ g1 }])
  | .linkWithText => (.text g1 [.link g2], [])
  | .linkSimple => (.text g1 [.link g1], [])
  | .image => (.mediaSingle g1 g1, [])
  | .lineBreak => (.hardBreak, [])
  | .codeBP => (.text whole [], [])
  | .noformatP => (.text whole [], [])
  | .quoteP => (.text whole [], [])

/-- Scan loop of `_parse_inline_content` (fuelled; each iteration consumes
at least one character, so `remaining.length` is always enough fuel). -/
def inlineLoop (ln : Nat) : Nat → Str → List ADFNode × List ParseErr
  | _, [] => ([], [])
  | 0, _ :: _ => ([], [])
  | fuel + 1, c :: rest =>
    let remaining := c :: rest
    match findEarliest remaining with
    | some (p, pos, g1, g2, len) =>
      let before := remaining.take pos
      let whole := (remaining.drop pos).take len
      let (node, errs) := processInlineMatch ln p g1 g2 whole
      let (tail, errs2) := inlineLoop ln fuel (remaining.drop (pos + len))
      ((if before.isEmpty then [] else [ADFNode.text before []]) ++ node :: tail,
       errs ++ errs2)
    | none => ([ADFNode.text remaining []], [])

/-- `_parse_inline_content`. -/
def parseInlineContent (ln : Nat) (text : Str) : List ADFNode × List ParseErr :=
  if (pyStrip text).isEmpty then ([], [])
  else
    let r := inlineLoop ln text.length text
    (if r.1.isEmpty then [ADFNode.text text []] else r.1, r.2)

/-! ## Block parsers and the document builder -/

/-- `_is_block_element_start`. -/
def isBlockElementStart (l : Str) : Bool :=
  let s := pyStrip l
  (matchHeadingLine s).isSome || (matchTableHeaderLine s).isSome
    || (matchTableRowLine s).isSome || (matchBulletLine s).isSome
    || (matchNumberedLine s).isSome || matchRuleLine s
    || ("\x7bcode".toList).isPrefixOf s || ("\x7bnoformat".toList).isPrefixOf s
    || ("\x7bquote".toList).isPrefixOf s || ("\x7bpanel".toList).isPrefixOf s

/-- Line-collecting loop of `_parse_paragraph`: stop at a blank line, or at
a block-element start unless it is the first collected line. -/
def collectParaLines : List Str → Bool → List Str
  | [], _ => []
  | l :: rest, isFirst =>
    if (pyStrip l).isEmpty then []
    else if isBlockElementStart l && !isFirst then []
    else l :: collectParaLines rest false

/-- `_create_empty_paragraph`. -/
def emptyParagraph : ADFNode := ADFNode.paragraph [ADFNode.text [] []]

/-- `_parse_paragraph` on the suffix of lines starting at the cursor. -/
def parseParagraph (ln : Nat) (suffix : List Str) :
    Option ADFNode × Nat × List ParseErr :=
  let pls := collectParaLines suffix true
  if pls.isEmpty then (none, 1, [])
  else
    let text := joinSep ['\n'] pls
    let r := parseInlineContent ln text
    if r.1.isEmpty then (some emptyParagraph, pls.length, r.2)
    else (some (ADFNode.paragraph r.1), pls.length, r.2)

/-- Header-row cell construction of `_parse_table`: split the capture on
`||`, strip each cell, keep the non-empty ones. -/
def headerCellsOf (ln : Nat) (g : Str) : List ADFNode × List ParseErr :=
  let cells := (pySplit ("||".toList) g).map pyStrip
  let kept := cells.filter (fun c => !c.isEmpty)
  let rs := kept.map (fun c =>
    (ADFNode.tableHeaderCell [ADFNode.paragraph (parseInlineContent ln c).1],
     (parseInlineContent ln c).2))
  (rs.map Prod.fst, (rs.map Prod.snd).flatten)

/-- Data-row cell construction of `_parse_table`: split the capture on `|`,
strip each cell, keep the non-empty ones. -/
def dataCellsOf (ln : Nat) (g : Str) : List ADFNode × List ParseErr :=
  let cells := (pySplit (["|".toList].headI) g).map pyStrip
  let kept := cells.filter (fun c => !c.isEmpty)
  let rs := kept.map (fun c =>
    (ADFNode.tableCell [ADFNode.paragraph (parseInlineContent ln c).1],
     (parseInlineContent ln c).2))
  (rs.map Prod.fst, (rs.map Prod.snd).flatten)

/-- Row-consuming loop of `_parse_table`. -/
def parseTableRows (ln : Nat) : List Str → List ADFNode × Nat × List ParseErr
  | [] => ([], 0, [])
  | l :: rest =>
    let s := pyStrip l
    match matchTableHeaderLine s with
    | some g =>
      let rc := headerCellsOf ln g
      let r := parseTableRows ln rest
      (ADFNode.tableRow rc.1 :: r.1, r.2.1 + 1, rc.2 ++ r.2.2)
    | none =>
      match matchTableRowLine s with
      | some g =>
        let rc := dataCellsOf ln g
        let r := parseTableRows ln rest
        (ADFNode.tableRow rc.1 :: r.1, r.2.1 + 1, rc.2 ++ r.2.2)
      | none => ([], 0, [])

/-- `_parse_table`: falls back to `_parse_paragraph` when no rows parsed. -/
def parseTable (ln : Nat) (suffix : List Str) :
    Option ADFNode × Nat × List ParseErr :=
  let r := parseTableRows ln suffix
  if r.1.isEmpty then parseParagraph ln suffix
  else (some (ADFNode.table r.1), r.2.1, r.2.2)

inductive LKind : Type
  | bullet
  | ordered
deriving DecidableEq

structure LRes : Type where
  items : List ADFNode
  consumed : Nat
  errs : List ParseErr
  ltype : Option LKind

/-- Item-consuming loop of `_parse_list`, tracking `list_type`: a marker
of the other family ends the loop, blank lines inside the run are skipped. -/
def parseListItems (ln : Nat) : List Str → Option LKind → LRes
  | [], lt => ⟨[], 0, [], lt⟩
  | l :: rest, lt =>
    match matchBulletLine l with
    | some g =>
      match lt with
      | some LKind.ordered => ⟨[], 0, [], lt⟩
      | _ =>
        let ri := parseInlineContent ln g.2
        let item := ADFNode.listItem [ADFNode.paragraph ri.1]
        let r := parseListItems ln rest (some LKind.bullet)
        ⟨item :: r.items, r.consumed + 1, ri.2 ++ r.errs, r.ltype⟩
    | none =>
      match matchNumberedLine l with
      | some g =>
        match lt with
        | some LKind.bullet => ⟨[], 0, [], lt⟩
        | _ =>
          let ri := parseInlineContent ln g.2
          let item := ADFNode.listItem [ADFNode.paragraph ri.1]
          let r := parseListItems ln rest (some LKind.ordered)
          ⟨item :: r.items, r.consumed + 1, ri.2 ++ r.errs, r.ltype⟩
      | none =>
        if !(pyStrip l).isEmpty then ⟨[], 0, [], lt⟩
        else
          let r := parseListItems ln rest lt
          ⟨r.items, r.consumed + 1, r.errs, r.ltype⟩

/-- `_parse_list`: falls back to `_parse_paragraph` when no items parsed;
the node type is `list_type or "bulletList"`. -/
def parseList (ln : Nat) (suffix : List Str) :
    Option ADFNode × Nat × List ParseErr :=
  let r := parseListItems ln suffix none
  if r.items.isEmpty then parseParagraph ln suffix
  else
    (some (match r.ltype with
           | some LKind.ordered => ADFNode.orderedList r.items
           | _ => ADFNode.bulletList r.items),
     r.consumed, r.errs)

/-- `_parse_code_block_from_match`: the body is stripped; `attrs` carries
the language only when `match.group(1) or ""` is non-empty. -/
def parseCodeBlockFromMatch (lang : Option Str) (interior : Str) : ADFNode :=
  let language := lang.getD []
  ADFNode.codeBlock (if language.isEmpty then none else some language)
    [ADFNode.text (pyStrip interior) []]

/-- `_parse_noformat_block`: the body is kept verbatim. -/
def parseNoformatBlock (interior : Str) : ADFNode :=
  ADFNode.codeBlock none [ADFNode.text interior []]

/-- `_parse_quote_block`. -/
def parseQuoteBlock (ln : Nat) (interior : Str) : ADFNode × List ParseErr :=
  let r := parseInlineContent ln (pyStrip interior)
  (ADFNode.blockquote [ADFNode.paragraph r.1], r.2)

/-- `_parse_panel_block`. -/
def parsePanelBlock (ln : Nat) (title : Option Str) (interior : Str) :
    ADFNode × List ParseErr :=
  let titleAttr := match title with
    | some t => if t.isEmpty then none else some t
    | none => none
  let r := parseInlineContent ln (pyStrip interior)
  (ADFNode.panel titleAttr [ADFNode.paragraph r.1], r.2)

/-- Panel stage of `_parse_block_element`: the panel pattern searched over
the newline-join of the remaining lines, accepted only when anchored at
offset 0. -/
def parseFencedPanel (ln : Nat) (joined : Str) :
    Option (Option ADFNode × Nat × List ParseErr) :=
  match searchFrom matchPanelAt joined with
  | some (0, (title, interior, len)) =>
    let r := parsePanelBlock ln title interior
    some (some r.1, ((joined.take len).count '\n') + 1, r.2)
  | _ => none

/-- Quote stage of `_parse_block_element`. -/
def parseFencedQuote (ln : Nat) (joined : Str) :
    Option (Option ADFNode × Nat × List ParseErr) :=
  match searchFrom matchQuoteAt joined with
  | some (0, (interior, len)) =>
    let r := parseQuoteBlock ln interior
    some (some r.1, ((joined.take len).count '\n') + 1, r.2)
  | _ => parseFencedPanel ln joined

/-- Noformat stage of `_parse_block_element`. -/
def parseFencedNoformat (ln : Nat) (joined : Str) :
    Option (Option ADFNode × Nat × List ParseErr) :=
  match searchFrom matchNoformatAt joined with
  | some (0, (interior, len)) =>
    some (some (parseNoformatBlock interior), ((joined.take len).count '\n') + 1, [])
  | _ => parseFencedQuote ln joined

/-- Code-block stage of `_parse_block_element`: first of the four fenced
families tried against the joined remaining lines. -/
def parseFencedCode (ln : Nat) (joined : Str) :
    Option (Option ADFNode × Nat × List ParseErr) :=
  match searchFrom matchCodeAt joined with
  | some (0, (lang, interior, len)) =>
    some (some (parseCodeBlockFromMatch lang interior),
          ((joined.take len).count '\n') + 1, [])
  | _ => parseFencedNoformat ln joined

/-- `_parse_block_element` on the suffix of lines starting at the cursor:
heading, rule, table, list, then the four fenced families matched against
the newline-join of the remaining lines with the match anchored at offset
0; the consumed line count is `group(0).count('\n') + 1`. -/
def parseBlockElement (ln : Nat) (suffix : List Str) :
    Option (Option ADFNode × Nat × List ParseErr) :=
  match suffix with
  | [] => none
  | l0 :: _ =>
    let line := pyStrip l0
    match matchHeadingLine line with
    | some (lvl, txt) =>
      let r := parseInlineContent ln (pyStrip txt)
      some (some (ADFNode.heading lvl r.1), 1, r.2)
    | none =>
      if matchRuleLine line then some (some ADFNode.rule, 1, [])
      else if (matchTableHeaderLine line).isSome || (matchTableRowLine line).isSome then
        some (parseTable ln suffix)
      else if (matchBulletLine line).isSome || (matchNumberedLine line).isSome then
        some (parseList ln suffix)
      else parseFencedCode ln (joinSep ['\n'] suffix)

/-- Cursor loop of `_parse_document` (fuelled by the number of remaining
lines; every iteration consumes at least one line).  `ln` is the 1-based
line number `i + 1` assigned to `context.line_number`. -/
def parseDocLoop : Nat → Nat → List Str → List (Option ADFNode) × List ParseErr
  | _, _, [] => ([], [])
  | 0, _, _ :: _ => ([], [])
  | fuel + 1, ln, l :: rest =>
    if (pyStrip l).isEmpty then parseDocLoop fuel (ln + 1) rest
    else
      match parseBlockElement ln (l :: rest) with
      | some (elem, n, errs) =>
        let r := parseDocLoop fuel (ln + n) ((l :: rest).drop n)
        (elem :: r.1, errs ++ r.2)
      | none =>
        let p := parseParagraph ln (l :: rest)
        let r := parseDocLoop fuel (ln + p.2.1) ((l :: rest).drop p.2.1)
        ((match p.1 with | some q => some q :: r.1 | none => r.1), p.2.2 ++ r.2)

/-- `_parse_document`: split into lines, run the cursor loop, substitute a
single empty paragraph when no content was produced. -/
def parseDocument (text : Str) : List (Option ADFNode) × List ParseErr :=
  let lines := splitNl text
  let r := parseDocLoop lines.length 1 lines
  (if r.1.isEmpty then [some emptyParagraph] else r.1, r.2)

/-- Root document object of `convert_text`. -/
structure ADFDoc : Type where
  version : Nat
  type : Str
  content : List (Option ADFNode)

/-- `convert_text`: normalize line endings, parse, wrap in the fixed
document envelope; the diagnostics of the fresh `ParsingContext` are
returned alongside. -/
def convertText (wikiText : Str) : ADFDoc × List ParseErr :=
  let t := normalizeNewlines wikiText
  let r := parseDocument t
  ({ version := 1, type := "doc".toList, content := r.1 }, r.2)

/-! ## wiki2adf.py: `parse_code_block` of class `JiraWikiToADF` -/

namespace Wiki2ADF

/-- `re.match(r"\{code:([^}|]+)", first_line)`. -/
def matchCodeLang (l : Str) : Option Str :=
  if ("\x7bcode:".toList).isPrefixOf l then
    let run := (l.drop 6).takeWhile (fun c => c != '}' && c != '|')
    if run.isEmpty then none else some run
  else none

/-- Body-collecting loop: stop at the first line whose stripped form starts
with `\x7bcode\x7d`; returns the collected (newline-rstripped) lines and how
many lines were scanned before the stop. -/
def codeScan : List Str → List Str × Nat
  | [] => ([], 0)
  | l :: rest =>
    if ("\x7bcode\x7d".toList).isPrefixOf (pyStrip l) then ([], 0)
    else
      let r := codeScan rest
      (pyRstripNl l :: r.1, r.2 + 1)

/-- Message logged by `parse_code_block` for an unclosed block. -/
def unclosedCodeMsg (startIdx : Nat) : Str :=
  "Line ".toList ++ (toString (startIdx + 1)).toList
    ++ ": Unclosed \x7bcode\x7d block; closing at EOF".toList

/-- `JiraWikiToADF.parse_code_block`: returns the codeBlock node, the index
just past the closing line, and the errors logged by this call. -/
def parse_code_block (lines : List Str) (startIdx : Nat) :
    ADFNode × Nat × List Str :=
  let firstLine := pyStrip (lines.getD startIdx [])
  let language := matchCodeLang firstLine
  let after := lines.drop (startIdx + 1)
  let scan := codeScan after
  let i := startIdx + 1 + scan.2
  let errs := if decide (lines.length ≤ i) then [unclosedCodeMsg startIdx] else []
  let codeText := joinSep ['\n'] scan.1
  (ADFNode.codeBlock language [ADFNode.text codeText []], i + 1, errs)

end Wiki2ADF

/-! ## Derived forms used by the statements below -/

/-- A full color span `{color:VALUE}INTERIOR{color}` as raw text. -/
def colorSpan (c interior : Str) : Str :=
  "\x7bcolor:".toList ++ (c ++ '}' :: (interior ++ "\x7bcolor\x7d".toList))

/-- Shapes of color values that the alternation
`#?[a-fA-F0-9]{3,6}|[a-zA-Z]+` captures in full when followed by `}`. -/
def capturableColor (c : Str) : Prop :=
  (c ≠ [] ∧ c.all isAsciiLetter = true)
  ∨ (∃ r, c = '#' :: r ∧ r.all isHexDigit = true ∧ 3 ≤ r.length ∧ r.length ≤ 6)
  ∨ (c ≠ [] ∧ c.all isHexDigit = true ∧ 3 ≤ c.length ∧ c.length ≤ 6)

/-- Specification-side reading of `_is_valid_color`: a `#`-prefixed 3- or
6-digit hex value, or a member of the named set after lowercasing. -/
def specValidColor (c : Str) : Prop :=
  (∃ r, c = '#' :: r ∧ r.all isHexDigit = true ∧ (r.length = 3 ∨ r.length = 6))
  ∨ (c.map Char.toLower) ∈ namedColors

/-- The diagnostic `_process_inline_match` records for an invalid color
value spanning the whole scanned text. -/
def invalidColorErr (ln : Nat) (c interior : Str) : ParseErr :=
  { errorType := .invalid_color, lineNumber := ln, column := 0,
    originalText := colorSpan c interior,
    parsedAs := "Plain text: ".toList ++ interior,
    message := "Invalid color value: ".toList ++ c }

/-- A fenced `{code}BODY{code}` region as raw text. -/
def codeSpan (body : Str) : Str :=
  "\x7bcode\x7d".toList ++ (body ++ "\x7bcode\x7d".toList)

/-- A fenced `{noformat}BODY{noformat}` region as raw text. -/
def noformatSpan (body : Str) : Str :=
  "\x7bnoformat\x7d".toList ++ (body ++ "\x7bnoformat\x7d".toList)

/-- Item text of a bullet list line (group 2 of the bullet pattern). -/
def bulletText (l : Str) : Str :=
  match matchBulletLine l with
  | some g => g.2
  | none => []

/-- Item text of a numbered list line (group 2 of the numbered pattern). -/
def numberedText (l : Str) : Str :=
  match matchNumberedLine l with
  | some g => g.2
  | none => []

/-- The list item node `_parse_list` builds for one item text. -/
def listItemOf (ln : Nat) (txt : Str) : ADFNode :=
  ADFNode.listItem [ADFNode.paragraph (parseInlineContent ln txt).1]

/-- The inline diagnostics produced while parsing one item text. -/
def listItemErrs (ln : Nat) (txt : Str) : List ParseErr :=
  (parseInlineContent ln txt).2

/-- A header table line `||c1||c2||...||` built from its cell texts. -/
def headerLineOf (cells : List Str) : Str :=
  "||".toList ++ (joinSep ("||".toList) cells ++ "||".toList)

/-- A data table line `|c1|c2|...|` built from its cell texts. -/
def dataLineOf (cells : List Str) : Str :=
  '|' :: (joinSep ['|'] cells ++ ['|'])

/-- The header cell node `_parse_table` builds for one cell text. -/
def headerCellNode (ln : Nat) (c : Str) : ADFNode :=
  ADFNode.tableHeaderCell [ADFNode.paragraph (parseInlineContent ln c).1]

/-- The data cell node `_parse_table` builds for one cell text. -/
def dataCellNode (ln : Nat) (c : Str) : ADFNode :=
  ADFNode.tableCell [ADFNode.paragraph (parseInlineContent ln c).1]

/-! ## Lemmas about the string helpers -/

theorem all_takeWhile_append {p : Char → Bool} {l t : Str} (h : l.all p = true) :
    (l ++ t).takeWhile p = l ++ t.takeWhile p := by
  induction l with
  | nil => simp
  | cons c cs ih =>
    simp only [List.all_cons, Bool.and_eq_true] at h
    simp [List.takeWhile_cons_of_pos h.1, ih h.2]

theorem all_dropWhile_append {p : Char → Bool} {l t : Str} (h : l.all p = true) :
    (l ++ t).dropWhile p = t.dropWhile p := by
  induction l with
  | nil => simp
  | cons c cs ih =>
    simp only [List.all_cons, Bool.and_eq_true] at h
    simp [List.dropWhile_cons_of_pos h.1, ih h.2]

theorem break_takeWhile_append {p : Char → Bool} {l t : Str} (h : l.dropWhile p ≠ []) :
    (l ++ t).takeWhile p = l.takeWhile p := by
  induction l with
  | nil => simp at h
  | cons c cs ih =>
    by_cases hc : p c = true
    · rw [List.dropWhile_cons_of_pos hc] at h
      simp [List.takeWhile_cons_of_pos hc, ih h]
    · simp [List.takeWhile_cons_of_neg hc]

theorem break_dropWhile_append {p : Char → Bool} {l t : Str} (h : l.dropWhile p ≠ []) :
    (l ++ t).dropWhile p = l.dropWhile p ++ t := by
  induction l with
  | nil => simp at h
  | cons c cs ih =>
    by_cases hc : p c = true
    · rw [List.dropWhile_cons_of_pos hc] at h
      simp [List.dropWhile_cons_of_pos hc, ih h]
    · simp [List.dropWhile_cons_of_neg hc]

theorem pyStrip_cons_head {a : Char} (ha : isPySpace a = false) (l : Str) :
    ∃ t, pyStrip (a :: l) = a :: t := by
  unfold pyStrip
  rw [List.dropWhile_cons_of_neg (by simp [ha])]
  rw [List.reverse_cons]
  by_cases hall : l.reverse.all isPySpace = true
  · rw [all_dropWhile_append hall, List.dropWhile_cons_of_neg (by simp [ha])]
    exact ⟨[], by simp⟩
  · have hbr : l.reverse.dropWhile isPySpace ≠ [] := by
      intro hnil
      exact hall (List.all_eq_true.mpr (List.dropWhile_eq_nil_iff.mp hnil))
    rw [break_dropWhile_append hbr]
    exact ⟨(l.reverse.dropWhile isPySpace).reverse, by simp⟩

theorem pyStrip_isEmpty_false {a : Char} (ha : isPySpace a = false) (l : Str) :
    (pyStrip (a :: l)).isEmpty = false := by
  obtain ⟨t, ht⟩ := pyStrip_cons_head ha l
  rw [ht]
  rfl

theorem pyStrip_edge {a b : Char} (ha : isPySpace a = false) (hb : isPySpace b = false)
    (m : Str) : pyStrip (a :: (m ++ [b])) = a :: (m ++ [b]) := by
  unfold pyStrip
  rw [List.dropWhile_cons_of_neg (by simp [ha])]
  have h1 : (a :: (m ++ [b])).reverse = b :: (m.reverse ++ [a]) := by
    simp
  rw [h1, List.dropWhile_cons_of_neg (by simp [hb]), ← h1, List.reverse_reverse]

theorem findSub_of_isPrefixOf {pat l : Str} (hne : pat ≠ [])
    (h : pat.isPrefixOf l = true) : findSub pat l = some 0 := by
  cases l with
  | nil =>
    cases pat with
    | nil => exact absurd rfl hne
    | cons p ps => simp [List.isPrefixOf] at h
  | cons c rest =>
    rw [findSub, if_pos h]

theorem findSub_cons_none {pat : Str} {c : Char} {l : Str}
    (h : findSub pat (c :: l) = none) :
    pat.isPrefixOf (c :: l) = false ∧ findSub pat l = none := by
  rw [findSub] at h
  by_cases hp : pat.isPrefixOf (c :: l) = true
  · rw [if_pos hp] at h
    exact absurd h (by simp)
  · rw [if_neg hp] at h
    refine ⟨?_, by simpa using h⟩
    cases hpv : pat.isPrefixOf (c :: l)
    · rfl
    · exact absurd hpv hp

theorem findSub_marker {pat : Str} (hne : pat ≠ [])
    (hso : ∀ k, k < pat.length → 0 < k → ¬ (pat.drop k <+: pat))
    {body : Str} (hb : findSub pat body = none) (tail : Str) :
    findSub pat (body ++ (pat ++ tail)) = some body.length := by
  induction body with
  | nil =>
    simp only [List.nil_append, List.length_nil]
    exact findSub_of_isPrefixOf hne
      (List.isPrefixOf_iff_prefix.mpr (List.prefix_append pat tail))
  | cons c cs ih =>
    obtain ⟨hnp, hcs⟩ := findSub_cons_none hb
    have hnp2 : ¬ (pat.isPrefixOf (c :: (cs ++ (pat ++ tail))) = true) := by
      intro hp
      have hpre : pat <+: (c :: cs) ++ (pat ++ tail) := by
        simpa using List.isPrefixOf_iff_prefix.mp hp
      by_cases hlen : pat.length ≤ (c :: cs).length
      · have : pat <+: (c :: cs) :=
          List.prefix_of_prefix_length_le hpre (List.prefix_append _ _) hlen
        rw [List.isPrefixOf_iff_prefix.mpr this] at hnp
        exact absurd hnp (by simp)
      · push_neg at hlen
        have hLp : (c :: cs) <+: pat :=
          List.prefix_of_prefix_length_le (List.prefix_append _ _) hpre
            (Nat.le_of_lt hlen)
        have hpat_eq : (c :: cs) ++ pat.drop (c :: cs).length = pat :=
          List.prefix_iff_eq_append.mp hLp
        obtain ⟨t1, ht1⟩ := hpre
        have hd : pat.drop (c :: cs).length ++ t1 = pat ++ tail := by
          have h2 : ((c :: cs) ++ pat.drop (c :: cs).length) ++ t1
              = (c :: cs) ++ (pat ++ tail) := by
            rw [hpat_eq]
            exact ht1
          rw [List.append_assoc] at h2
          exact List.append_cancel_left h2
        have hdpre : pat.drop (c :: cs).length <+: pat :=
          List.prefix_of_prefix_length_le ⟨t1, hd⟩ (List.prefix_append _ _)
            (by simp [Nat.sub_le])
        exact hso (c :: cs).length hlen (by simp) hdpre
    rw [List.cons_append, findSub, if_neg hnp2, ih hcs]
    rfl

theorem findSub_none_of_head_notMem {p0 : Char} {ps body : Str} (h : p0 ∉ body) :
    findSub (p0 :: ps) body = none := by
  induction body with
  | nil => simp [findSub, List.isPrefixOf]
  | cons c cs ih =>
    rw [findSub, if_neg, ih (fun hm => h (List.mem_cons_of_mem _ hm))]
    · rfl
    · intro hp
      have : p0 = c := by
        have := List.isPrefixOf_iff_prefix.mp hp
        obtain ⟨t, ht⟩ := this
        exact (List.cons.injEq _ _ _ _).mp ht.symm |>.1.symm
      exact h (this ▸ List.mem_cons_self _ _)

theorem splitNl_ne_nil (t : Str) : splitNl t ≠ [] := by
  cases t with
  | nil => simp [splitNl]
  | cons c r =>
    simp only [splitNl]
    split <;> simp

theorem splitNl_cons_shape (t : Str) : ∃ a rs, splitNl t = a :: rs := by
  cases h : splitNl t with
  | nil => exact absurd h (splitNl_ne_nil t)
  | cons a rs => exact ⟨a, rs, rfl⟩

theorem joinSep_cons_head (sep : Str) (c : Char) (a : Str) (r : List Str) :
    joinSep sep ((c :: a) :: r) = c :: joinSep sep (a :: r) := by
  cases r <;> simp [joinSep]

theorem joinSep_splitNl (t : Str) : joinSep ['\n'] (splitNl t) = t := by
  induction t with
  | nil => simp [splitNl, joinSep]
  | cons c r ih =>
    obtain ⟨a, rs, hr⟩ := splitNl_cons_shape r
    by_cases hc : c = '\n'
    · subst hc
      rw [show splitNl ('\n' :: r) = [] :: splitNl r from by simp [splitNl]]
      rw [hr] at ih ⊢
      simpa [joinSep] using ih
    · rw [show splitNl (c :: r) = (c :: (splitNl r).headI) :: (splitNl r).tail from by
        simp [splitNl, hc]]
      rw [hr] at ih ⊢
      simpa [joinSep_cons_head] using ih

theorem splitNl_length (t : Str) : (splitNl t).length = t.count '\n' + 1 := by
  induction t with
  | nil => simp [splitNl]
  | cons c r ih =>
    obtain ⟨a, rs, hr⟩ := splitNl_cons_shape r
    by_cases hc : c = '\n'
    · subst hc
      rw [show splitNl ('\n' :: r) = [] :: splitNl r from by simp [splitNl]]
      simp [ih, List.count_cons]
    · rw [show splitNl (c :: r) = (c :: (splitNl r).headI) :: (splitNl r).tail from by
        simp [splitNl, hc]]
      rw [hr] at ih ⊢
      simpa [List.count_cons, hc] using ih

/-! ## Lemmas about the line matchers and the inline scan -/

theorem matchHeadingLine_none {c : Char} (hc : c ≠ 'h') (l : Str) :
    matchHeadingLine (c :: l) = none := by
  rw [matchHeadingLine.eq_def]
  split
  · next d rest heq =>
    injection heq with h1 h2
    exact absurd h1 hc
  · rfl

theorem matchRuleLine_false {c : Char} (hc : c ≠ '-') (l : Str) :
    matchRuleLine (c :: l) = false := by
  simp [matchRuleLine, hc]

theorem matchTableHeaderLine_none {c : Char} (hc : c ≠ '|') (l : Str) :
    matchTableHeaderLine (c :: l) = none := by
  rw [matchTableHeaderLine, if_neg]
  rintro ⟨-, h2, -⟩
  rw [List.take_succ_cons] at h2
  injection h2 with h1 _
  exact hc h1

theorem matchTableRowLine_none {c : Char} (hc : c ≠ '|') (l : Str) :
    matchTableRowLine (c :: l) = none := by
  rw [matchTableRowLine, if_neg]
  rintro ⟨-, h2, -⟩
  simp only [List.head?_cons, Option.some.injEq] at h2
  exact hc h2

theorem matchBulletLine_none {c : Char} (hc : c ≠ '*') (l : Str) :
    matchBulletLine (c :: l) = none := by
  unfold matchBulletLine
  rw [List.takeWhile_cons_of_neg (by simp [hc])]
  rfl

theorem matchNumberedLine_none {c : Char} (hc : c ≠ '#') (l : Str) :
    matchNumberedLine (c :: l) = none := by
  unfold matchNumberedLine
  rw [List.takeWhile_cons_of_neg (by simp [hc])]
  rfl

theorem searchFrom_cons_of_match {α : Type} {f : Str → Option α} {c : Char} {l : Str}
    {a : α} (h : f (c :: l) = some a) : searchFrom f (c :: l) = some (0, a) := by
  rw [searchFrom, h]

theorem searchFrom_zero {α : Type} {f : Str → Option α} {c : Char} {l : Str} {a : α}
    (h : searchFrom f (c :: l) = some (0, a)) : f (c :: l) = some a := by
  rw [searchFrom] at h
  cases hf : f (c :: l) with
  | some b =>
    rw [hf] at h
    injection h with h1
    injection h1 with _ h2
    rw [h2]
  | none =>
    rw [hf] at h
    cases hs : searchFrom f l with
    | none => rw [hs] at h; exact absurd h (by simp)
    | some pa =>
      rw [hs] at h
      injection h with h1
      exact absurd (congrArg Prod.fst h1) (by simp)

theorem pickEarlier_keep {T : Nat} {q : ICand} (h : q.2.1 = 0) (p : IPat) (s : Str) :
    pickEarlier T (some q) p s = some q := by
  unfold pickEarlier
  cases hs : searchFrom (anchoredInline p) s with
  | none => rfl
  | some pa =>
    obtain ⟨pos, g1, g2, len⟩ := pa
    simp [h]

theorem foldl_pickEarlier_keep {q : ICand} (h : q.2.1 = 0) (s : Str) (ps : List IPat) :
    ps.foldl (fun acc p => pickEarlier s.length acc p s) (some q) = some q := by
  induction ps with
  | nil => rfl
  | cons p ps ih => rw [List.foldl_cons, pickEarlier_keep h, ih]

theorem findEarliest_color {g1 g2 : Str} {n : Nat} {c : Char} {l : Str}
    (h : matchColorAt (c :: l) = some (g1, g2, n)) :
    findEarliest (c :: l) = some (.colorP, 0, g1, g2, n) := by
  unfold findEarliest inlineOrder
  rw [List.foldl_cons]
  have h1 : pickEarlier (c :: l).length none .colorP (c :: l)
      = some (.colorP, 0, g1, g2, n) := by
    unfold pickEarlier
    rw [show anchoredInline IPat.colorP = matchColorAt from rfl,
      searchFrom_cons_of_match h]
    simp
  rw [h1, foldl_pickEarlier_keep rfl]

theorem inlineLoop_whole {ln fuel : Nat} {c : Char} {l : Str} {p : IPat}
    {g1 g2 : Str} {n : Nat}
    (h : findEarliest (c :: l) = some (p, 0, g1, g2, n))
    (hn : n = (c :: l).length) :
    inlineLoop ln (fuel + 1) (c :: l)
      = ([(processInlineMatch ln p g1 g2 (c :: l)).1],
         (processInlineMatch ln p g1 g2 (c :: l)).2) := by
  simp only [inlineLoop, h]
  simp only [List.take_zero, List.isEmpty_nil, Nat.zero_add, List.drop_zero]
  rw [hn, List.take_length, List.drop_length]
  simp [inlineLoop]

/-! ## Lemmas about the color span -/

theorem colorCapK_hexcase {x : Char} {cs R : Str} (hxne : x ≠ '#')
    (hhex : (x :: cs).all isHexDigit = true) (h3 : 3 ≤ (x :: cs).length)
    (h6 : (x :: cs).length ≤ 6) :
    colorCapK ((x :: cs) ++ '}' :: R) = some (x :: cs, (x :: cs).length) := by
  have hhead : ((x :: cs) ++ '}' :: R).head? = some x := rfl
  have hif : (if ((x :: cs) ++ '}' :: R).head? = some '#' then 1 else 0) = 0 := by
    rw [hhead]
    simp [hxne]
  have htw : ((x :: cs) ++ '}' :: R).takeWhile isHexDigit = x :: cs := by
    rw [all_takeWhile_append hhex, List.takeWhile_cons_of_neg (by decide),
      List.append_nil]
  have hdrop : ((x :: cs) ++ '}' :: R).drop ((x :: cs)).length = '}' :: R :=
    List.drop_left' rfl
  have htake : ((x :: cs) ++ '}' :: R).take ((x :: cs)).length = x :: cs :=
    List.take_left' rfl
  simp only [colorCapK, hif, List.drop_zero, htw, Nat.zero_add, hdrop, htake,
    List.head?_cons]
  rw [if_pos]
  simp only [List.length_cons] at h3 h6
  simp
  omega

theorem dropWhile_head_not {p : Char → Bool} {l : Str} {y : Char} {ys : Str}
    (h : l.dropWhile p = y :: ys) : p y = false := by
  induction l with
  | nil => simp at h
  | cons a as ih =>
    by_cases ha : p a = true
    · rw [List.dropWhile_cons_of_pos ha] at h
      exact ih h
    · rw [List.dropWhile_cons_of_neg ha] at h
      injection h with h1 h2
      rw [← h1]
      cases hpa : p a
      · rfl
      · exact absurd hpa ha

theorem colorCapK_letters {x : Char} {cs R : Str}
    (hletters : (x :: cs).all isAsciiLetter = true) :
    colorCapK ((x :: cs) ++ '}' :: R) = some (x :: cs, (x :: cs).length) := by
  have hx : isAsciiLetter x = true :=
    List.all_eq_true.mp hletters x (List.mem_cons_self x cs)
  have hxne : x ≠ '#' := by
    intro h
    rw [h] at hx
    exact absurd hx (by decide)
  by_cases hA1 : (x :: cs).all isHexDigit = true ∧ 3 ≤ (x :: cs).length
      ∧ (x :: cs).length ≤ 6
  · exact colorCapK_hexcase hxne hA1.1 hA1.2.1 hA1.2.2
  · have hhead : ((x :: cs) ++ '}' :: R).head? = some x := rfl
    have hif : (if ((x :: cs) ++ '}' :: R).head? = some '#' then 1 else 0) = 0 := by
      rw [hhead]
      simp [hxne]
    have hrun : ((x :: cs) ++ '}' :: R).takeWhile isAsciiLetter = x :: cs := by
      rw [all_takeWhile_append hletters, List.takeWhile_cons_of_neg (by decide),
        List.append_nil]
    have hdrop : ((x :: cs) ++ '}' :: R).drop ((x :: cs)).length = '}' :: R :=
      List.drop_left' rfl
    have hcond : (decide (3 ≤ (((x :: cs) ++ '}' :: R).takeWhile isHexDigit).length)
        && decide ((((x :: cs) ++ '}' :: R).takeWhile isHexDigit).length ≤ 6)
        && ((((x :: cs) ++ '}' :: R).drop
              ((((x :: cs) ++ '}' :: R).takeWhile isHexDigit).length)).head?
            == some '}')) = false := by
      by_cases hall : (x :: cs).all isHexDigit = true
      · have htw : ((x :: cs) ++ '}' :: R).takeWhile isHexDigit = x :: cs := by
          rw [all_takeWhile_append hall, List.takeWhile_cons_of_neg (by decide),
            List.append_nil]
        rw [htw, hdrop]
        have hnot : ¬(3 ≤ (x :: cs).length ∧ (x :: cs).length ≤ 6) :=
          fun h => hA1 ⟨hall, h⟩
        simp only [List.head?_cons, beq_self_eq_true, Bool.and_true]
        simp only [List.length_cons] at hnot
        simp only [List.length_cons]
        simp
        omega
      · have hdw : (x :: cs).dropWhile isHexDigit ≠ [] := by
          intro h0
          exact hall (List.all_eq_true.mpr (List.dropWhile_eq_nil_iff.mp h0))
        obtain ⟨y, ys, hyd⟩ : ∃ y ys, (x :: cs).dropWhile isHexDigit = y :: ys := by
          cases h0 : (x :: cs).dropWhile isHexDigit with
          | nil => exact absurd h0 hdw
          | cons y ys => exact ⟨y, ys, rfl⟩
        have hynothex : isHexDigit y = false := dropWhile_head_not hyd
        have hymem : y ∈ x :: cs :=
          (List.dropWhile_sublist isHexDigit).subset (by simp [hyd])
        have hyletter : isAsciiLetter y = true :=
          List.all_eq_true.mp hletters y hymem
        have hyne : y ≠ '}' := by
          intro h
          rw [h] at hyletter
          exact absurd hyletter (by decide)
        have htw2 : ((x :: cs) ++ '}' :: R).takeWhile isHexDigit
            = (x :: cs).takeWhile isHexDigit := break_takeWhile_append hdw
        have hdrop2 : ((x :: cs) ++ '}' :: R).drop
            (((x :: cs).takeWhile isHexDigit).length) = y :: (ys ++ '}' :: R) := by
          conv_lhs =>
            rw [show (x :: cs) ++ '}' :: R
              = (x :: cs).takeWhile isHexDigit
                ++ ((x :: cs).dropWhile isHexDigit ++ '}' :: R) from by
              rw [← List.append_assoc, List.takeWhile_append_dropWhile]]
          rw [List.drop_left' rfl, hyd, List.cons_append]
        rw [htw2, hdrop2]
        simp [hyne]
    simp only [colorCapK, hif, List.drop_zero, Nat.zero_add]
    rw [if_neg, hrun]
    · rw [hdrop]
      rw [if_pos (by simp)]
    · intro hc
      rw [hcond] at hc
      exact Bool.false_ne_true hc

theorem colorCapK_capture {c R : Str} (hcap : capturableColor c) :
    colorCapK (c ++ '}' :: R) = some (c, c.length) := by
  rcases hcap with ⟨hne, hletters⟩ | ⟨r, rfl, hhex, h3, h6⟩ | ⟨hne, hhex, h3, h6⟩
  · obtain ⟨x, cs, rfl⟩ : ∃ x cs, c = x :: cs := by
      cases c with
      | nil => exact absurd rfl hne
      | cons x cs => exact ⟨x, cs, rfl⟩
    exact colorCapK_letters hletters
  · have hhead : (('#' :: r) ++ '}' :: R).head? = some '#' := rfl
    have hif : (if (('#' :: r) ++ '}' :: R).head? = some '#' then 1 else 0) = 1 := by
      rw [hhead]
      simp
    have hdrop1 : (('#' :: r) ++ '}' :: R).drop 1 = r ++ '}' :: R := by simp
    have htw : (r ++ '}' :: R).takeWhile isHexDigit = r := by
      rw [all_takeWhile_append hhex, List.takeWhile_cons_of_neg (by decide),
        List.append_nil]
    have hdropk : (('#' :: r) ++ '}' :: R).drop (1 + r.length) = '}' :: R := by
      rw [Nat.add_comm, List.cons_append, List.drop_succ_cons]
      exact List.drop_left' rfl
    have htakek : (('#' :: r) ++ '}' :: R).take (1 + r.length) = '#' :: r := by
      rw [Nat.add_comm, List.cons_append, List.take_succ_cons, List.take_left' rfl]
    simp only [colorCapK, hif, hdrop1, htw, hdropk, htakek, List.head?_cons]
    rw [if_pos (by simp [h3, h6])]
    simp [List.length_cons, Nat.add_comm]
  · obtain ⟨x, cs, rfl⟩ : ∃ x cs, c = x :: cs := by
      cases c with
      | nil => exact absurd rfl hne
      | cons x cs => exact ⟨x, cs, rfl⟩
    have hx : isHexDigit x = true :=
      List.all_eq_true.mp hhex x (List.mem_cons_self x cs)
    have hxne : x ≠ '#' := by
      intro h
      rw [h] at hx
      exact absurd hx (by decide)
    exact colorCapK_hexcase hxne hhex h3 h6

theorem matchColorAt_span {c interior : Str} (hcap : capturableColor c)
    (hint : findSub ("\x7bcolor\x7d".toList) interior = none) :
    matchColorAt (colorSpan c interior)
      = some (c, interior, (colorSpan c interior).length) := by
  have hso : ∀ k, k < ("\x7bcolor\x7d".toList).length → 0 < k →
      ¬ ("\x7bcolor\x7d".toList.drop k <+: "\x7bcolor\x7d".toList) := by decide
  have hfind : findSub ("\x7bcolor\x7d".toList)
      (interior ++ "\x7bcolor\x7d".toList) = some interior.length := by
    have := @findSub_marker ("\x7bcolor\x7d".toList) (by decide) hso _ hint []
    simpa using this
  have hpre : ("\x7bcolor:".toList).isPrefixOf (colorSpan c interior) = true :=
    List.isPrefixOf_iff_prefix.mpr (List.prefix_append _ _)
  have ht : (colorSpan c interior).drop 7
      = c ++ '}' :: (interior ++ "\x7bcolor\x7d".toList) := by
    unfold colorSpan
    exact List.drop_left' (by rfl)
  have hu : (c ++ '}' :: (interior ++ "\x7bcolor\x7d".toList)).drop (c.length + 1)
      = interior ++ "\x7bcolor\x7d".toList := by
    rw [show c ++ '}' :: (interior ++ "\x7bcolor\x7d".toList)
      = (c ++ ['}']) ++ (interior ++ "\x7bcolor\x7d".toList) from by simp]
    exact List.drop_left' (by simp)
  have htake : (interior ++ "\x7bcolor\x7d".toList).take interior.length = interior :=
    List.take_left' rfl
  simp only [matchColorAt, hpre, if_true, ht, colorCapK_capture hcap, hu, hfind, htake]
  have hlen : 7 + c.length + 1 + interior.length + 7
      = (colorSpan c interior).length := by
    unfold colorSpan
    simp [List.length_append]
    omega
  rw [hlen]

theorem parseInline_colorSpan (ln : Nat) {c interior : Str}
    (hcap : capturableColor c)
    (hint : findSub ("\x7bcolor\x7d".toList) interior = none) :
    parseInlineContent ln (colorSpan c interior)
      = (if isValidColor c then [ADFNode.text interior [Mark.textColor c]]
         else [ADFNode.text interior []],
         if isValidColor c then [] else [invalidColorErr ln c interior]) := by
  have hshape : colorSpan c interior
      = '{' :: ("color:".toList ++ (c ++ '}' :: (interior ++ "\x7bcolor\x7d".toList))) := rfl
  have hmatch := matchColorAt_span hcap hint
  rw [hshape] at hmatch
  have hfe := findEarliest_color hmatch
  unfold parseInlineContent
  rw [hshape]
  rw [pyStrip_isEmpty_false (by decide)]
  simp only [Bool.false_eq_true, if_false]
  rw [show ('{' :: ("color:".toList ++ (c ++ '}' :: (interior ++ "\x7bcolor\x7d".toList)))).length
    = ("color:".toList ++ (c ++ '}' :: (interior ++ "\x7bcolor\x7d".toList))).length + 1
    from by simp]
  rw [inlineLoop_whole hfe rfl]
  unfold processInlineMatch
  by_cases hv : isValidColor c = true
  · simp [hv]
  · simp only [hv, Bool.false_eq_true, if_false]
    simp [invalidColorErr, hshape]

/-! ## Lemmas about the fenced blocks -/

theorem searchFrom_not_zero {α : Type} {f : Str → Option α} {l : Str}
    (h : f l = none) : ∀ a, searchFrom f l ≠ some (0, a) := by
  intro a hs
  cases l with
  | nil =>
    rw [searchFrom, h] at hs
    exact absurd hs (by simp)
  | cons c rest =>
    have := searchFrom_zero hs
    rw [h] at this
    exact absurd this (by simp)

theorem parseFencedCode_miss {ln : Nat} {joined : Str}
    (h : matchCodeAt joined = none) :
    parseFencedCode ln joined = parseFencedNoformat ln joined := by
  unfold parseFencedCode
  cases hs : searchFrom matchCodeAt joined with
  | none => rfl
  | some pr =>
    obtain ⟨p, lang, interior, len⟩ := pr
    cases p with
    | zero => exact absurd hs (searchFrom_not_zero h _)
    | succ n => rfl

theorem matchCodeAt_span {body : Str}
    (hb : findSub ("\x7bcode\x7d".toList) body = none) :
    matchCodeAt (codeSpan body) = some (none, body, (codeSpan body).length) := by
  have hso : ∀ k, k < ("\x7bcode\x7d".toList).length → 0 < k →
      ¬ ("\x7bcode\x7d".toList.drop k <+: "\x7bcode\x7d".toList) := by decide
  have hfind : findSub ("\x7bcode\x7d".toList)
      (body ++ "\x7bcode\x7d".toList) = some body.length := by
    have := @findSub_marker ("\x7bcode\x7d".toList) (by decide) hso _ hb []
    simpa using this
  have hpre : ("\x7bcode".toList).isPrefixOf (codeSpan body) = true := rfl
  have ht : (codeSpan body).drop 5 = '}' :: (body ++ "\x7bcode\x7d".toList) := rfl
  have hopen : codeOpenK ('}' :: (body ++ "\x7bcode\x7d".toList)) = some (none, 1) := by
    unfold codeOpenK
    rw [if_neg (by rw [List.head?_cons]; decide), if_pos (by simp)]
  have hu : ('}' :: (body ++ "\x7bcode\x7d".toList)).drop 1
      = body ++ "\x7bcode\x7d".toList := rfl
  have htake : (body ++ "\x7bcode\x7d".toList).take body.length = body :=
    List.take_left' rfl
  simp only [matchCodeAt, hpre, if_true, ht, hopen, hu, hfind, htake]
  have hlen : 5 + 1 + body.length + 6 = (codeSpan body).length := by
    unfold codeSpan
    simp [List.length_append]
    omega
  rw [hlen]

theorem matchNoformatAt_span {body : Str}
    (hb : findSub ("\x7bnoformat\x7d".toList) body = none) :
    matchNoformatAt (noformatSpan body)
      = some (body, (noformatSpan body).length) := by
  have hso : ∀ k, k < ("\x7bnoformat\x7d".toList).length → 0 < k →
      ¬ ("\x7bnoformat\x7d".toList.drop k <+: "\x7bnoformat\x7d".toList) := by decide
  have hfind : findSub ("\x7bnoformat\x7d".toList)
      (body ++ "\x7bnoformat\x7d".toList) = some body.length := by
    have := @findSub_marker ("\x7bnoformat\x7d".toList) (by decide) hso _ hb []
    simpa using this
  have hpre : ("\x7bnoformat\x7d".toList).isPrefixOf (noformatSpan body) = true :=
    List.isPrefixOf_iff_prefix.mpr (List.prefix_append _ _)
  have ht : (noformatSpan body).drop 10 = body ++ "\x7bnoformat\x7d".toList := by
    unfold noformatSpan
    exact List.drop_left' (by rfl)
  have htake : (body ++ "\x7bnoformat\x7d".toList).take body.length = body :=
    List.take_left' rfl
  simp only [matchNoformatAt, hpre, if_true, ht, hfind, htake]
  have hlen : 10 + body.length + 10 = (noformatSpan body).length := by
    unfold noformatSpan
    simp [List.length_append]
    omega
  rw [hlen]

theorem matchCodeAt_noformatSpan (body : Str) :
    matchCodeAt (noformatSpan body) = none := by
  unfold matchCodeAt
  rw [if_neg]
  intro h
  exact Bool.false_ne_true h

theorem splitNl_cons_of_ne {c : Char} (hc : c ≠ '\n') (t : Str) :
    splitNl (c :: t) = (c :: (splitNl t).headI) :: (splitNl t).tail := by
  simp [splitNl, hc]

theorem splitNl_head_tail (t : Str) :
    (splitNl t).headI :: (splitNl t).tail = splitNl t := by
  obtain ⟨a, rs, hr⟩ := splitNl_cons_shape t
  rw [hr]
  rfl

theorem parseBlockElement_brace {ln : Nat} {l0 : Str} {rest : List Str}
    (h0 : l0.head? = some '{') :
    parseBlockElement ln (l0 :: rest)
      = parseFencedCode ln (joinSep ['\n'] (l0 :: rest)) := by
  obtain ⟨t0, rfl⟩ : ∃ t0, l0 = '{' :: t0 := by
    cases l0 with
    | nil => simp at h0
    | cons a t =>
      rw [List.head?_cons] at h0
      injection h0 with h
      exact ⟨t, by rw [h]⟩
  obtain ⟨t', hstrip⟩ := @pyStrip_cons_head '{' (by decide) t0
  simp only [parseBlockElement, hstrip]
  rw [matchHeadingLine_none (by decide), matchRuleLine_false (by decide),
    matchTableHeaderLine_none (by decide), matchTableRowLine_none (by decide),
    matchBulletLine_none (by decide), matchNumberedLine_none (by decide)]
  simp

theorem parseBlockElement_codeSpan (ln : Nat) {body : Str}
    (hb : findSub ("\x7bcode\x7d".toList) body = none) :
    parseBlockElement ln (splitNl (codeSpan body))
      = some (some (ADFNode.codeBlock none [ADFNode.text (pyStrip body) []]),
              (splitNl (codeSpan body)).length, []) := by
  have hx : codeSpan body
      = '{' :: ("code\x7d".toList ++ (body ++ "\x7bcode\x7d".toList)) := rfl
  have hcons : splitNl (codeSpan body)
      = ('{' :: (splitNl ("code\x7d".toList ++ (body ++ "\x7bcode\x7d".toList))).headI)
        :: (splitNl ("code\x7d".toList ++ (body ++ "\x7bcode\x7d".toList))).tail := by
    rw [hx, splitNl_cons_of_ne (by decide)]
  rw [hcons, parseBlockElement_brace (by rw [List.head?_cons])]
  rw [← hcons, joinSep_splitNl]
  unfold parseFencedCode
  have hm : matchCodeAt ('{' :: ("code\x7d".toList ++ (body ++ "\x7bcode\x7d".toList)))
      = some (none, body, (codeSpan body).length) := by
    rw [← hx]
    exact matchCodeAt_span hb
  rw [hx, searchFrom_cons_of_match hm, ← hx]
  simp [parseCodeBlockFromMatch, List.take_length, ← splitNl_length]

theorem parseBlockElement_noformatSpan (ln : Nat) {body : Str}
    (hb : findSub ("\x7bnoformat\x7d".toList) body = none) :
    parseBlockElement ln (splitNl (noformatSpan body))
      = some (some (ADFNode.codeBlock none [ADFNode.text body []]),
              (splitNl (noformatSpan body)).length, []) := by
  have hx : noformatSpan body
      = '{' :: ("noformat\x7d".toList ++ (body ++ "\x7bnoformat\x7d".toList)) := rfl
  have hcons : splitNl (noformatSpan body)
      = ('{' :: (splitNl ("noformat\x7d".toList
            ++ (body ++ "\x7bnoformat\x7d".toList))).headI)
        :: (splitNl ("noformat\x7d".toList
            ++ (body ++ "\x7bnoformat\x7d".toList))).tail := by
    rw [hx, splitNl_cons_of_ne (by decide)]
  rw [hcons, parseBlockElement_brace (by rw [List.head?_cons])]
  rw [← hcons, joinSep_splitNl]
  rw [parseFencedCode_miss (matchCodeAt_noformatSpan body)]
  unfold parseFencedNoformat
  have hm : matchNoformatAt ('{' :: ("noformat\x7d".toList
        ++ (body ++ "\x7bnoformat\x7d".toList)))
      = some (body, (noformatSpan body).length) := by
    rw [← hx]
    exact matchNoformatAt_span hb
  rw [hx, searchFrom_cons_of_match hm, ← hx]
  simp [parseNoformatBlock, List.take_length, ← splitNl_length]

theorem parseDocument_single_block {span X : Str} {node : ADFNode}
    (hX : span = '{' :: X)
    (hblock : parseBlockElement 1 (splitNl span)
      = some (some node, (splitNl span).length, [])) :
    parseDocument span = ([some node], []) := by
  have hcons : splitNl span = ('{' :: (splitNl X).headI) :: (splitNl X).tail := by
    rw [hX, splitNl_cons_of_ne (by decide)]
  unfold parseDocument
  rw [hcons] at hblock
  rw [hcons]
  simp only [List.length_cons]
  simp only [parseDocLoop]
  rw [pyStrip_isEmpty_false (by decide)]
  simp only [Bool.false_eq_true, if_false]
  rw [hblock]
  obtain ⟨a, rs, hr⟩ := splitNl_cons_shape X
  have hdrop : List.drop (splitNl X).length
      (('{' :: (splitNl X).headI) :: (splitNl X).tail) = [] := by
    apply List.drop_eq_nil_of_le
    rw [hr]
    simp
  have hlen : (splitNl X).length - 1 + 1 = (splitNl X).length := by
    rw [hr]
    simp
  simp [parseDocLoop, hlen, hdrop, List.drop_length]

theorem parseDocument_codeSpan {body : Str}
    (hb : findSub ("\x7bcode\x7d".toList) body = none) :
    parseDocument (codeSpan body)
      = ([some (ADFNode.codeBlock none [ADFNode.text (pyStrip body) []])], []) :=
  @parseDocument_single_block _
    ("code\x7d".toList ++ (body ++ "\x7bcode\x7d".toList)) _ rfl
    (parseBlockElement_codeSpan 1 hb)

theorem parseDocument_noformatSpan {body : Str}
    (hb : findSub ("\x7bnoformat\x7d".toList) body = none) :
    parseDocument (noformatSpan body)
      = ([some (ADFNode.codeBlock none [ADFNode.text body []])], []) :=
  @parseDocument_single_block _
    ("noformat\x7d".toList ++ (body ++ "\x7bnoformat\x7d".toList)) _ rfl
    (parseBlockElement_noformatSpan 1 hb)

/-! ## Characterization of the color validator -/

theorem isValidColor_iff (c : Str) : isValidColor c = true ↔ specValidColor c := by
  unfold isValidColor specValidColor
  cases c with
  | nil =>
    simp only [List.head?_nil]
    rw [if_neg (by simp)]
    constructor
    · intro h
      exact absurd h (by decide)
    · rintro (⟨r, hr, -⟩ | hmem)
      · exact absurd hr (by simp)
      · exact absurd hmem (by decide)
  | cons a rest =>
    by_cases ha : a = '#'
    · subst ha
      rw [if_pos (by simp)]
      simp only [List.tail_cons]
      constructor
      · intro h
        simp only [Bool.and_eq_true, Bool.or_eq_true, decide_eq_true_eq] at h
        exact Or.inl ⟨rest, rfl, h.2, h.1⟩
      · rintro (⟨r, hr, hhex, hlen⟩ | hmem)
        · injection hr with _ h2
          subst h2
          simp only [Bool.and_eq_true, Bool.or_eq_true, decide_eq_true_eq]
          exact ⟨hlen, hhex⟩
        · exfalso
          have hhead : ∀ x ∈ namedColors, x.head? ≠ some '#' := by decide
          have : (('#' :: rest).map Char.toLower).head? = some '#' := by
            simp [show Char.toLower '#' = '#' from by decide]
          exact hhead _ hmem this
    · rw [if_neg (by simp [ha])]
      constructor
      · intro h
        exact Or.inr (by simpa using h)
      · rintro (⟨r, hr, -⟩ | hmem)
        · injection hr with h1 _
          exact absurd h1 ha
        · simpa using hmem

/-! ## Lemmas about wiki2adf parse_code_block -/

theorem codeScan_all {ls : List Str}
    (h : ∀ l ∈ ls, ("\x7bcode\x7d".toList).isPrefixOf (pyStrip l) = false) :
    Wiki2ADF.codeScan ls = (ls.map pyRstripNl, ls.length) := by
  induction ls with
  | nil => rfl
  | cons l rest ih =>
    unfold Wiki2ADF.codeScan
    rw [if_neg (by
      intro hc
      rw [h l (List.mem_cons_self l rest)] at hc
      exact Bool.false_ne_true hc)]
    rw [ih (fun x hx => h x (List.mem_cons_of_mem _ hx))]
    simp

theorem wiki2adf_parse_code_block_unclosed {lines : List Str} {startIdx : Nat}
    (hlt : startIdx < lines.length)
    (h : ∀ l ∈ lines.drop (startIdx + 1),
      ("\x7bcode\x7d".toList).isPrefixOf (pyStrip l) = false) :
    Wiki2ADF.parse_code_block lines startIdx
      = (ADFNode.codeBlock (Wiki2ADF.matchCodeLang (pyStrip (lines.getD startIdx [])))
          [ADFNode.text (joinSep ['\n'] ((lines.drop (startIdx + 1)).map pyRstripNl)) []],
         lines.length + 1,
         [Wiki2ADF.unclosedCodeMsg startIdx]) := by
  unfold Wiki2ADF.parse_code_block
  simp only [codeScan_all h]
  have hlen : startIdx + 1 + (lines.drop (startIdx + 1)).length = lines.length := by
    rw [List.length_drop]
    omega
  simp only [hlen]
  rw [if_pos (by simp)]

/-! ## Lemmas about list runs -/

theorem numbered_not_bullet {l : Str} (h : (matchNumberedLine l).isSome) :
    matchBulletLine l = none := by
  cases l with
  | nil => simp [matchBulletLine]
  | cons a t =>
    have ha : a = '#' := by
      by_contra hne
      rw [matchNumberedLine_none hne] at h
      simp at h
    subst ha
    exact matchBulletLine_none (by decide) t

theorem bullet_not_numbered {l : Str} (h : (matchBulletLine l).isSome) :
    matchNumberedLine l = none := by
  cases l with
  | nil => simp [matchNumberedLine]
  | cons a t =>
    have ha : a = '*' := by
      by_contra hne
      rw [matchBulletLine_none hne] at h
      simp at h
    subst ha
    exact matchNumberedLine_none (by decide) t

theorem parseListItems_bullet_run (ln : Nat) {pre : List Str} {x : Str}
    (hpre : ∀ l ∈ pre, (matchBulletLine l).isSome)
    (hx : (matchNumberedLine x).isSome) (rest : List Str) :
    parseListItems ln (pre ++ x :: rest) (some LKind.bullet)
      = ⟨pre.map (fun l => listItemOf ln (bulletText l)), pre.length,
         (pre.map (fun l => listItemErrs ln (bulletText l))).flatten,
         some LKind.bullet⟩ := by
  induction pre with
  | nil =>
    simp only [List.nil_append]
    unfold parseListItems
    rw [numbered_not_bullet hx]
    obtain ⟨g, hg⟩ := Option.isSome_iff_exists.mp hx
    rw [hg]
    simp
  | cons p pre' ih =>
    obtain ⟨gp, hgp⟩ := Option.isSome_iff_exists.mp (hpre p (List.mem_cons_self p pre'))
    rw [List.cons_append]
    unfold parseListItems
    rw [hgp, ih (fun l hl => hpre l (List.mem_cons_of_mem _ hl))]
    simp [listItemOf, listItemErrs, bulletText, hgp]

theorem parseListItems_numbered_run (ln : Nat) {pre : List Str} {x : Str}
    (hpre : ∀ l ∈ pre, (matchNumberedLine l).isSome)
    (hx : (matchBulletLine x).isSome) (rest : List Str) :
    parseListItems ln (pre ++ x :: rest) (some LKind.ordered)
      = ⟨pre.map (fun l => listItemOf ln (numberedText l)), pre.length,
         (pre.map (fun l => listItemErrs ln (numberedText l))).flatten,
         some LKind.ordered⟩ := by
  induction pre with
  | nil =>
    simp only [List.nil_append]
    unfold parseListItems
    obtain ⟨g, hg⟩ := Option.isSome_iff_exists.mp hx
    rw [hg]
    simp
  | cons p pre' ih =>
    obtain ⟨gp, hgp⟩ := Option.isSome_iff_exists.mp (hpre p (List.mem_cons_self p pre'))
    rw [List.cons_append]
    unfold parseListItems
    rw [numbered_not_bullet (by simp [hgp]), hgp,
      ih (fun l hl => hpre l (List.mem_cons_of_mem _ hl))]
    simp [listItemOf, listItemErrs, numberedText, hgp]

theorem parseList_bullet_run (ln : Nat) {p0 : Str} {pre : List Str} {x : Str}
    (hp0 : (matchBulletLine p0).isSome)
    (hpre : ∀ l ∈ pre, (matchBulletLine l).isSome)
    (hx : (matchNumberedLine x).isSome) (rest : List Str) :
    parseList ln ((p0 :: pre) ++ x :: rest)
      = (some (ADFNode.bulletList
          ((p0 :: pre).map (fun l => listItemOf ln (bulletText l)))),
         (p0 :: pre).length,
         ((p0 :: pre).map (fun l => listItemErrs ln (bulletText l))).flatten) := by
  obtain ⟨g0, hg0⟩ := Option.isSome_iff_exists.mp hp0
  unfold parseList
  rw [List.cons_append]
  unfold parseListItems
  rw [hg0, parseListItems_bullet_run ln hpre hx rest]
  simp [listItemOf, listItemErrs, bulletText, hg0]

theorem parseList_numbered_run (ln : Nat) {p0 : Str} {pre : List Str} {x : Str}
    (hp0 : (matchNumberedLine p0).isSome)
    (hpre : ∀ l ∈ pre, (matchNumberedLine l).isSome)
    (hx : (matchBulletLine x).isSome) (rest : List Str) :
    parseList ln ((p0 :: pre) ++ x :: rest)
      = (some (ADFNode.orderedList
          ((p0 :: pre).map (fun l => listItemOf ln (numberedText l)))),
         (p0 :: pre).length,
         ((p0 :: pre).map (fun l => listItemErrs ln (numberedText l))).flatten) := by
  obtain ⟨g0, hg0⟩ := Option.isSome_iff_exists.mp hp0
  unfold parseList
  rw [List.cons_append]
  unfold parseListItems
  rw [numbered_not_bullet (by simp [hg0]), hg0,
    parseListItems_numbered_run ln hpre hx rest]
  simp [listItemOf, listItemErrs, numberedText, hg0]

/-! ## Lemmas about table rows -/

theorem findSub_marker_notMem {s0 : Char} {ps body : Str} (hb : s0 ∉ body)
    (tail : Str) :
    findSub (s0 :: ps) (body ++ ((s0 :: ps) ++ tail)) = some body.length := by
  induction body with
  | nil =>
    simp only [List.nil_append, List.length_nil]
    exact findSub_of_isPrefixOf (by simp)
      (List.isPrefixOf_iff_prefix.mpr (List.prefix_append _ _))
  | cons c cs ih =>
    rw [List.cons_append, findSub, if_neg, ih (fun hm => hb (List.mem_cons_of_mem _ hm))]
    · rfl
    · intro hp
      obtain ⟨t, ht⟩ := List.isPrefixOf_iff_prefix.mp hp
      have : s0 = c := by
        have := congrArg List.head? ht
        simpa using this
      exact hb (this ▸ List.mem_cons_self _ _)

theorem joinSep_ne_nil {sep : Str} {c0 : Str} {cells' : List Str} (h : c0 ≠ []) :
    joinSep sep (c0 :: cells') ≠ [] := by
  cases cells' with
  | nil => simpa [joinSep] using h
  | cons c2 rest =>
    simp only [joinSep]
    intro hcontra
    rw [List.append_assoc] at hcontra
    exact h (List.append_eq_nil.mp hcontra).1

theorem joinSep_head? {sep : Str} {c0 : Str} {cells' : List Str} (h : c0 ≠ []) :
    (joinSep sep (c0 :: cells')).head? = c0.head? := by
  cases cells' with
  | nil => rfl
  | cons c2 rest =>
    simp only [joinSep, List.append_assoc, List.head?_append]
    cases c0 with
    | nil => exact absurd rfl h
    | cons a t => rfl

theorem joinSep_getLast? {sep : Str} {cells : List Str} {cl : Str}
    (hlast : cells.getLast? = some cl) (hne : ∀ c ∈ cells, c ≠ []) :
    (joinSep sep cells).getLast? = cl.getLast? := by
  induction cells with
  | nil => simp at hlast
  | cons c cells' ih =>
    cases cells' with
    | nil =>
      simp only [List.getLast?_singleton, Option.some.injEq] at hlast
      subst hlast
      rfl
    | cons c2 rest =>
      have hlast2 : (c2 :: rest).getLast? = some cl := by
        rw [← hlast]
        rfl
      rw [show joinSep sep (c :: c2 :: rest) = c ++ sep ++ joinSep sep (c2 :: rest)
        from rfl]
      rw [List.getLast?_append]
      rw [ih hlast2 (fun x hx => hne x (List.mem_cons_of_mem _ hx))]
      have hclne : cl ≠ [] := hne cl (List.mem_of_getLast?_eq_some hlast)
      cases hg : cl.getLast? with
      | none => exact absurd (List.getLast?_eq_none_iff.mp hg) hclne
      | some b =>
        simp [hg]

theorem pySplitAux_join {s0 : Char} {ps : Str} {cells : List Str}
    (hfree : ∀ c ∈ cells, s0 ∉ c) (hne : cells ≠ []) :
    ∀ fuel, (joinSep (s0 :: ps) cells).length < fuel →
      pySplitAux (s0 :: ps) fuel (joinSep (s0 :: ps) cells) = cells := by
  induction cells with
  | nil => exact absurd rfl hne
  | cons c cells' ih =>
    intro fuel hfuel
    cases cells' with
    | nil =>
      cases fuel with
      | zero => rfl
      | succ f =>
        unfold pySplitAux
        rw [show joinSep (s0 :: ps) [c] = c from rfl,
          findSub_none_of_head_notMem (hfree c (List.mem_cons_self c []))]
    | cons c2 cells'' =>
      cases fuel with
      | zero => exact absurd hfuel (by omega)
      | succ f =>
        unfold pySplitAux
        rw [show joinSep (s0 :: ps) (c :: c2 :: cells'')
          = c ++ ((s0 :: ps) ++ joinSep (s0 :: ps) (c2 :: cells'')) from by
          simp [joinSep]]
        rw [findSub_marker_notMem (hfree c (List.mem_cons_self c _)) _]
        have htk : List.take c.length
            (c ++ ((s0 :: ps) ++ joinSep (s0 :: ps) (c2 :: cells''))) = c :=
          List.take_left' rfl
        have hdp : (c ++ ((s0 :: ps) ++ joinSep (s0 :: ps) (c2 :: cells''))).drop
            (c.length + (s0 :: ps).length) = joinSep (s0 :: ps) (c2 :: cells'') := by
          rw [← List.append_assoc]
          exact List.drop_left' (by simp)
        have hih := ih (fun x hx => hfree x (List.mem_cons_of_mem _ hx)) (by simp) f (by
          rw [show joinSep (s0 :: ps) (c :: c2 :: cells'')
            = c ++ ((s0 :: ps) ++ joinSep (s0 :: ps) (c2 :: cells'')) from by
            simp [joinSep]] at hfuel
          simp only [List.length_append, List.length_cons] at hfuel
          omega)
        simp only [htk, hdp, hih]

theorem matchTableHeaderLine_build (m : Str) (h1 : m ≠ []) :
    matchTableHeaderLine ('|' :: '|' :: (m ++ ['|', '|'])) = some m := by
  have hlen : ('|' :: '|' :: (m ++ ['|', '|'])).length = m.length + 4 := by simp
  rw [matchTableHeaderLine, if_pos]
  · congr 1
    rw [hlen]
    show (m ++ ['|', '|']).take (m.length + 4 - 4) = m
    rw [Nat.add_sub_cancel]
    exact List.take_left' rfl
  · refine ⟨?_, rfl, ?_⟩
    · rw [hlen]
      have := List.length_pos.mpr h1
      omega
    · rw [hlen]
      rw [show ('|' :: '|' :: (m ++ ['|', '|'])) = (('|' :: '|' :: m) ++ ['|', '|'])
        from by simp]
      have h2 : m.length + 4 - 2 = ('|' :: '|' :: m).length := by simp
      rw [h2]
      exact List.drop_left _ _

theorem matchTableRowLine_build (m : Str) (h3 : 3 ≤ m.length)
    (hh : m.head? ≠ some '|') (hl : m.getLast? ≠ some '|') :
    matchTableRowLine ('|' :: (m ++ ['|'])) = some m := by
  rcases List.eq_nil_or_concat m with rfl | ⟨m', b, rfl⟩
  · simp at h3
  · simp only [List.concat_eq_append] at h3 hh hl ⊢
    have hlen : ('|' :: (m' ++ [b] ++ ['|'])).length = m'.length + 3 := by simp
    have hb : b ≠ '|' := by
      intro hcontra
      exact hl (by rw [hcontra]; exact List.getLast?_concat _)
    rw [matchTableRowLine, if_pos]
    · congr 1
      rw [hlen]
      show ((m' ++ [b]) ++ ['|']).take (m'.length + 3 - 2) = m' ++ [b]
      have h2 : m'.length + 3 - 2 = (m' ++ [b]).length := by simp
      rw [h2]
      exact List.take_left' rfl
    · refine ⟨?_, rfl, ?_, ?_, ?_⟩
      · rw [hlen]
        simp only [List.length_append, List.length_cons, List.length_nil] at h3
        omega
      · rw [show ('|' :: (m' ++ [b] ++ ['|'])) = ('|' :: (m' ++ [b])) ++ ['|']
          from by simp]
        exact List.getLast?_concat _
      · show ((m' ++ [b]) ++ ['|']).head? ≠ some '|'
        cases m' with
        | nil => simpa using hb
        | cons a t =>
          simp only [List.cons_append, List.head?_cons]
          simpa using hh
      · rw [hlen]
        have h1 : m'.length + 3 - 2 = ('|' :: m').length := by simp
        have h2 : ('|' :: (m' ++ [b] ++ ['|'])) = ('|' :: m') ++ [b, '|'] := by simp
        rw [h1, h2, List.drop_left]
        simpa using hb

theorem headerCellsOf_join (ln : Nat) (cells : List Str) (hcne : cells ≠ [])
    (hfree : ∀ c ∈ cells, '|' ∉ c) :
    (headerCellsOf ln (joinSep ("||".toList) cells)).1
      = ((cells.map pyStrip).filter (fun c => !c.isEmpty)).map (headerCellNode ln) := by
  have hsep : "||".toList = '|' :: ['|'] := rfl
  simp only [headerCellsOf, hsep, pySplit]
  rw [pySplitAux_join hfree hcne _ (Nat.lt_succ_self _)]
  simp only [List.map_map]
  rfl

theorem dataCellsOf_join (ln : Nat) (cells : List Str) (hcne : cells ≠ [])
    (hfree : ∀ c ∈ cells, '|' ∉ c) :
    (dataCellsOf ln (joinSep ['|'] cells)).1
      = ((cells.map pyStrip).filter (fun c => !c.isEmpty)).map (dataCellNode ln) := by
  have hsep : (["|".toList].headI) = '|' :: ([] : Str) := rfl
  simp only [dataCellsOf, hsep, pySplit]
  rw [pySplitAux_join hfree hcne _ (Nat.lt_succ_self _)]
  simp only [List.map_map]
  rfl

theorem pyStrip_isEmpty_iff (t : Str) :
    (pyStrip t).isEmpty = true ↔ t.all isPySpace = true := by
  rw [pyStrip]
  simp only [List.isEmpty_iff, List.reverse_eq_nil_iff, List.dropWhile_eq_nil_iff,
    List.mem_reverse]
  constructor
  · intro h
    rw [List.all_eq_true]
    intro c hc
    rw [← List.takeWhile_append_dropWhile isPySpace t,
      List.mem_append] at hc
    rcases hc with h1 | h2
    · exact List.mem_takeWhile_imp h1
    · exact h c h2
  · intro h c hc
    exact List.all_eq_true.mp h c ((List.dropWhile_sublist isPySpace).subset hc)

theorem convertText_content_ne_nil (w : Str) : (convertText w).1.content ≠ [] := by
  simp only [convertText, parseDocument]
  split
  · simp
  · next h => simpa [List.isEmpty_iff] using h

/-! ## The claims -/

/-- C1: for every input string, conversion returns a document whose root
content sequence is non-empty; an input producing no blocks (the empty
string, or only blank lines) yields exactly one empty-paragraph
placeholder. -/
theorem C1_convert_content_nonempty :
    (∀ w : Str, (convertText w).1.content ≠ [])
    ∧ (convertText ("".toList)).1.content = [some emptyParagraph]
    ∧ (convertText ("  \n \n ".toList)).1.content = [some emptyParagraph] :=
  ⟨convertText_content_ne_nil, rfl, rfl⟩

/-- C2: the conversion entry point is a total function: every input yields
the fixed document envelope (version 1, type "doc") around the parsed
blocks, with a non-empty content sequence; no input aborts the pass. -/
theorem C2_convert_total_envelope (w : Str) :
    convertText w
      = ({ version := 1, type := "doc".toList,
           content := (parseDocument (normalizeNewlines w)).1 },
         (parseDocument (normalizeNewlines w)).2)
    ∧ (convertText w).1.content ≠ [] :=
  ⟨rfl, convertText_content_ne_nil w⟩

/-- C3: a fenced region whose body contains no closing marker becomes a
single codeBlock node holding exactly one unmarked text leaf; the
\x7bnoformat\x7d body is kept byte-for-byte, but the \x7bcode\x7d body is
whitespace-stripped first (amended from byte-for-byte for both). -/
theorem C3_fenced_single_text_leaf (body : Str)
    (hc : findSub ("\x7bcode\x7d".toList) body = none)
    (hn : findSub ("\x7bnoformat\x7d".toList) body = none) :
    parseDocument (codeSpan body)
      = ([some (ADFNode.codeBlock none [ADFNode.text (pyStrip body) []])], [])
    ∧ parseDocument (noformatSpan body)
      = ([some (ADFNode.codeBlock none [ADFNode.text body []])], []) :=
  ⟨parseDocument_codeSpan hc, parseDocument_noformatSpan hn⟩

theorem C3_fenced_single_text_leaf_witness :
    findSub ("\x7bcode\x7d".toList) ("*stars*".toList) = none
    ∧ findSub ("\x7bnoformat\x7d".toList) ("*stars*".toList) = none
    ∧ (parseDocument (codeSpan ("*stars*".toList))
        = ([some (ADFNode.codeBlock none [ADFNode.text (pyStrip ("*stars*".toList)) []])], [])
      ∧ parseDocument (noformatSpan ("*stars*".toList))
        = ([some (ADFNode.codeBlock none [ADFNode.text ("*stars*".toList) []])], [])) :=
  ⟨by decide, by decide,
   C3_fenced_single_text_leaf ("*stars*".toList) (by decide) (by decide)⟩

theorem C3_code_body_stripped_cex :
    parseDocument (codeSpan ("  x  ".toList))
      = ([some (ADFNode.codeBlock none [ADFNode.text ['x'] []])], [])
    ∧ ("x".toList : Str) ≠ "  x  ".toList :=
  ⟨rfl, by decide⟩

/-- C4: the main converter has no unclosed-fence handling: a \x7bcode\x7d
opener with no closer falls through to an ordinary paragraph with no
diagnostic; only wiki2adf.py's parse_code_block extends the block to the
end of input and logs exactly one unclosed-block message (amended from:
conversion produces a codeBlock to EOF plus one unclosed_tag
diagnostic). -/
theorem C4_unclosed_code_block (lines : List Str) (startIdx : Nat)
    (hlt : startIdx < lines.length)
    (h : ∀ l ∈ lines.drop (startIdx + 1),
      ("\x7bcode\x7d".toList).isPrefixOf (pyStrip l) = false) :
    Wiki2ADF.parse_code_block lines startIdx
      = (ADFNode.codeBlock (Wiki2ADF.matchCodeLang (pyStrip (lines.getD startIdx [])))
          [ADFNode.text (joinSep ['\n'] ((lines.drop (startIdx + 1)).map pyRstripNl)) []],
         lines.length + 1, [Wiki2ADF.unclosedCodeMsg startIdx])
    ∧ parseDocument ("\x7bcode\x7d\nhello".toList)
      = ([some (ADFNode.paragraph [ADFNode.text "\x7bcode\x7d\nhello".toList []])], []) :=
  ⟨wiki2adf_parse_code_block_unclosed hlt h, rfl⟩

theorem C4_unclosed_code_block_witness :
    0 < (["\x7bcode\x7d".toList, "hello".toList] : List Str).length
    ∧ (∀ l ∈ (["\x7bcode\x7d".toList, "hello".toList] : List Str).drop (0 + 1),
        ("\x7bcode\x7d".toList).isPrefixOf (pyStrip l) = false)
    ∧ (Wiki2ADF.parse_code_block ["\x7bcode\x7d".toList, "hello".toList] 0
        = (ADFNode.codeBlock
            (Wiki2ADF.matchCodeLang
              (pyStrip ((["\x7bcode\x7d".toList, "hello".toList] : List Str).getD 0 [])))
            [ADFNode.text (joinSep ['\n']
              (((["\x7bcode\x7d".toList, "hello".toList] : List Str).drop (0 + 1)).map
                pyRstripNl)) []],
           (["\x7bcode\x7d".toList, "hello".toList] : List Str).length + 1,
           [Wiki2ADF.unclosedCodeMsg 0])
      ∧ parseDocument ("\x7bcode\x7d\nhello".toList)
        = ([some (ADFNode.paragraph [ADFNode.text "\x7bcode\x7d\nhello".toList []])], [])) :=
  ⟨by decide, by decide,
   C4_unclosed_code_block ["\x7bcode\x7d".toList, "hello".toList] 0 (by decide) (by decide)⟩

theorem C4_converter_paragraph_cex :
    parseDocument ("\x7bcode\x7d\nhello".toList)
      = ([some (ADFNode.paragraph [ADFNode.text "\x7bcode\x7d\nhello".toList []])], []) := rfl

/-- C5: a color value is accepted exactly when it is a '#'-prefixed hex
value of exactly 3 or 6 digits, or a member of the fixed named-color set
matched case-insensitively (amended: bare hex without '#' and other hex
lengths are rejected); an accepted value yields a text node with a
textColor mark, an invalid one yields the interior as a plain text node
plus one invalid_color diagnostic. -/
theorem C5_color_acceptance (ln : Nat) (c interior : Str)
    (hcap : capturableColor c)
    (hint : findSub ("\x7bcolor\x7d".toList) interior = none) :
    (isValidColor c = true ↔ specValidColor c)
    ∧ parseInlineContent ln (colorSpan c interior)
        = (if isValidColor c then [ADFNode.text interior [Mark.textColor c]]
           else [ADFNode.text interior []],
           if isValidColor c then [] else [invalidColorErr ln c interior]) :=
  ⟨isValidColor_iff c, parseInline_colorSpan ln hcap hint⟩

theorem C5_color_acceptance_witness :
    capturableColor ("red".toList)
    ∧ findSub ("\x7bcolor\x7d".toList) ("x".toList) = none
    ∧ ((isValidColor ("red".toList) = true ↔ specValidColor ("red".toList))
      ∧ parseInlineContent 1 (colorSpan ("red".toList) ("x".toList))
        = (if isValidColor ("red".toList)
           then [ADFNode.text ("x".toList) [Mark.textColor ("red".toList)]]
           else [ADFNode.text ("x".toList) []],
           if isValidColor ("red".toList) then []
           else [invalidColorErr 1 ("red".toList) ("x".toList)])) :=
  ⟨Or.inl ⟨by decide, by decide⟩, by decide,
   C5_color_acceptance 1 ("red".toList) ("x".toList)
     (Or.inl ⟨by decide, by decide⟩) (by decide)⟩

theorem C5_bare_hex_rejected_cex :
    ("fff".toList).all isHexDigit = true
    ∧ ("fff".toList).length = 3
    ∧ isValidColor ("fff".toList) = false
    ∧ parseInlineContent 1 (colorSpan ("fff".toList) ("x".toList))
      = ([ADFNode.text ['x'] []], [invalidColorErr 1 ("fff".toList) ("x".toList)]) :=
  ⟨by decide, by decide, by decide, rfl⟩

/-- C6: the interior of a valid color span is not re-scanned for further
inline markup: it is kept as one text node carrying the raw interior text
with the textColor mark as its only mark (amended from: the interior is
re-parsed and the color mark merged into each resulting node). -/
theorem C6_color_interior_single_node (ln : Nat) (c interior : Str)
    (hcap : capturableColor c) (hv : isValidColor c = true)
    (hint : findSub ("\x7bcolor\x7d".toList) interior = none) :
    parseInlineContent ln (colorSpan c interior)
      = ([ADFNode.text interior [Mark.textColor c]], []) := by
  rw [parseInline_colorSpan ln hcap hint]
  simp [hv]

theorem C6_color_interior_single_node_witness :
    capturableColor ("red".toList)
    ∧ isValidColor ("red".toList) = true
    ∧ findSub ("\x7bcolor\x7d".toList) ("*bold*".toList) = none
    ∧ parseInlineContent 1 (colorSpan ("red".toList) ("*bold*".toList))
      = ([ADFNode.text ("*bold*".toList) [Mark.textColor ("red".toList)]], []) :=
  ⟨Or.inl ⟨by decide, by decide⟩, by decide, by decide,
   C6_color_interior_single_node 1 ("red".toList) ("*bold*".toList)
     (Or.inl ⟨by decide, by decide⟩) (by decide) (by decide)⟩

theorem C6_no_rescan_cex :
    parseInlineContent 1 (colorSpan ("red".toList) ("*bold*".toList))
      = ([ADFNode.text ("*bold*".toList) [Mark.textColor ("red".toList)]], [])
    ∧ ("*bold*".toList : Str) ≠ "bold".toList
    ∧ ([Mark.textColor ("red".toList)] : List Mark)
        ≠ [Mark.strong, Mark.textColor ("red".toList)] :=
  ⟨rfl, by decide, by decide⟩

/-- C7: a run of list-item lines of one marker family makes one homogeneous
list node, and a marker of the other family terminates it; the document
'* a', '# b', '* c' yields bulletList, orderedList, bulletList in order. -/
theorem C7_list_marker_homogeneity (ln : Nat) (p0 q0 x y : Str)
    (pre qre rest : List Str)
    (hp0 : (matchBulletLine p0).isSome)
    (hpre : ∀ l ∈ pre, (matchBulletLine l).isSome)
    (hx : (matchNumberedLine x).isSome)
    (hq0 : (matchNumberedLine q0).isSome)
    (hqre : ∀ l ∈ qre, (matchNumberedLine l).isSome)
    (hy : (matchBulletLine y).isSome) :
    parseList ln ((p0 :: pre) ++ x :: rest)
      = (some (ADFNode.bulletList
          ((p0 :: pre).map (fun l => listItemOf ln (bulletText l)))),
         (p0 :: pre).length,
         ((p0 :: pre).map (fun l => listItemErrs ln (bulletText l))).flatten)
    ∧ parseList ln ((q0 :: qre) ++ y :: rest)
      = (some (ADFNode.orderedList
          ((q0 :: qre).map (fun l => listItemOf ln (numberedText l)))),
         (q0 :: qre).length,
         ((q0 :: qre).map (fun l => listItemErrs ln (numberedText l))).flatten)
    ∧ parseDocument ("* a\n# b\n* c".toList)
      = ([some (ADFNode.bulletList [ADFNode.listItem [ADFNode.paragraph [ADFNode.text ['a'] []]]]),
          some (ADFNode.orderedList [ADFNode.listItem [ADFNode.paragraph [ADFNode.text ['b'] []]]]),
          some (ADFNode.bulletList [ADFNode.listItem [ADFNode.paragraph [ADFNode.text ['c'] []]]])],
         []) :=
  ⟨parseList_bullet_run ln hp0 hpre hx rest,
   parseList_numbered_run ln hq0 hqre hy rest, rfl⟩

theorem C7_list_marker_homogeneity_witness :
    (matchBulletLine ("* a".toList)).isSome = true
    ∧ (∀ l ∈ ([] : List Str), (matchBulletLine l).isSome = true)
    ∧ (matchNumberedLine ("# b".toList)).isSome = true
    ∧ (matchNumberedLine ("# b".toList)).isSome = true
    ∧ (∀ l ∈ ([] : List Str), (matchNumberedLine l).isSome = true)
    ∧ (matchBulletLine ("* c".toList)).isSome = true
    ∧ (parseList 1 (["* a".toList] ++ ["# b".toList])
        = (some (ADFNode.bulletList
            (["* a".toList].map (fun l => listItemOf 1 (bulletText l)))),
           (["* a".toList] : List Str).length,
           (["* a".toList].map (fun l => listItemErrs 1 (bulletText l))).flatten)
      ∧ parseList 1 (["# b".toList] ++ ["* c".toList])
        = (some (ADFNode.orderedList
            (["# b".toList].map (fun l => listItemOf 1 (numberedText l)))),
           (["# b".toList] : List Str).length,
           (["# b".toList].map (fun l => listItemErrs 1 (numberedText l))).flatten)
      ∧ parseDocument ("* a\n# b\n* c".toList)
        = ([some (ADFNode.bulletList [ADFNode.listItem [ADFNode.paragraph [ADFNode.text ['a'] []]]]),
            some (ADFNode.orderedList [ADFNode.listItem [ADFNode.paragraph [ADFNode.text ['b'] []]]]),
            some (ADFNode.bulletList [ADFNode.listItem [ADFNode.paragraph [ADFNode.text ['c'] []]]])],
           [])) :=
  ⟨by decide, by decide, by decide, by decide, by decide, by decide,
   C7_list_marker_homogeneity 1 ("* a".toList) ("# b".toList) ("# b".toList)
     ("* c".toList) [] [] []
     (by decide) (by decide) (by decide) (by decide) (by decide) (by decide)⟩

/-- C8: a line framed by double pipes is a header row and one framed by
single pipes is a data row, the capture split on the pipe separator with
every cell stripped; every cell that is empty after stripping is dropped,
wherever it occurs in the split (amended from: only the leading/trailing
empty cells are dropped). -/
theorem C8_table_rows (ln : Nat) (cells : List Str) (hcne : cells ≠ [])
    (hfree : ∀ c ∈ cells, '|' ∉ c) (hne : ∀ c ∈ cells, c ≠ [])
    (hlen : 3 ≤ (joinSep ['|'] cells).length) :
    matchTableHeaderLine (headerLineOf cells) = some (joinSep ("||".toList) cells)
    ∧ (headerCellsOf ln (joinSep ("||".toList) cells)).1
        = ((cells.map pyStrip).filter (fun c => !c.isEmpty)).map (headerCellNode ln)
    ∧ matchTableRowLine (dataLineOf cells) = some (joinSep ['|'] cells)
    ∧ (dataCellsOf ln (joinSep ['|'] cells)).1
        = ((cells.map pyStrip).filter (fun c => !c.isEmpty)).map (dataCellNode ln) := by
  obtain ⟨c0, cells', rfl⟩ : ∃ c0 cells', cells = c0 :: cells' := by
    cases cells with
    | nil => exact absurd rfl hcne
    | cons a b => exact ⟨a, b, rfl⟩
  have hc0 : c0 ≠ [] := hne c0 (List.mem_cons_self _ _)
  refine ⟨?_, headerCellsOf_join ln _ hcne hfree, ?_, dataCellsOf_join ln _ hcne hfree⟩
  · show matchTableHeaderLine
        ('|' :: '|' :: (joinSep ("||".toList) (c0 :: cells') ++ ['|', '|']))
      = some (joinSep ("||".toList) (c0 :: cells'))
    exact matchTableHeaderLine_build _ (joinSep_ne_nil hc0)
  · have hh : (joinSep ['|'] (c0 :: cells')).head? ≠ some '|' := by
      rw [joinSep_head? hc0]
      cases c0 with
      | nil => exact absurd rfl hc0
      | cons a t =>
        simp only [List.head?_cons, ne_eq, Option.some.injEq]
        intro ha
        subst ha
        exact hfree _ (List.mem_cons_self _ _) (List.mem_cons_self _ _)
    have hex : ∃ cl, (c0 :: cells').getLast? = some cl := by
      cases hgc : (c0 :: cells').getLast? with
      | none => exact absurd (List.getLast?_eq_none_iff.mp hgc) (by simp)
      | some cl => exact ⟨cl, rfl⟩
    obtain ⟨cl, hcl⟩ := hex
    have hclmem := List.mem_of_getLast?_eq_some hcl
    have hl : (joinSep ['|'] (c0 :: cells')).getLast? ≠ some '|' := by
      rw [joinSep_getLast? hcl hne]
      rcases List.eq_nil_or_concat cl with hnil | ⟨cl', b, hcb⟩
      · exact absurd hnil (hne cl hclmem)
      · subst hcb
        simp only [List.concat_eq_append, List.getLast?_concat, ne_eq, Option.some.injEq]
        intro hb
        subst hb
        exact hfree _ hclmem (by simp [List.concat_eq_append])
    exact matchTableRowLine_build _ hlen hh hl

theorem C8_table_rows_witness :
    ([['a'], ['b']] : List Str) ≠ []
    ∧ (∀ c ∈ ([['a'], ['b']] : List Str), '|' ∉ c)
    ∧ (∀ c ∈ ([['a'], ['b']] : List Str), c ≠ [])
    ∧ 3 ≤ (joinSep ['|'] [['a'], ['b']]).length
    ∧ (matchTableHeaderLine (headerLineOf [['a'], ['b']])
        = some (joinSep ("||".toList) [['a'], ['b']])
      ∧ (headerCellsOf 1 (joinSep ("||".toList) [['a'], ['b']])).1
          = ((([['a'], ['b']] : List Str).map pyStrip).filter
              (fun c => !c.isEmpty)).map (headerCellNode 1)
      ∧ matchTableRowLine (dataLineOf [['a'], ['b']]) = some (joinSep ['|'] [['a'], ['b']])
      ∧ (dataCellsOf 1 (joinSep ['|'] [['a'], ['b']])).1
          = ((([['a'], ['b']] : List Str).map pyStrip).filter
              (fun c => !c.isEmpty)).map (dataCellNode 1)) :=
  ⟨by decide, by decide, by decide, by decide,
   C8_table_rows 1 [['a'], ['b']] (by decide) (by decide) (by decide) (by decide)⟩

theorem C8_interior_empty_cell_cex :
    matchTableRowLine ("|a||b|".toList) = some ("a||b".toList)
    ∧ (pySplit ['|'] ("a||b".toList)).map pyStrip = [['a'], [], ['b']]
    ∧ (dataCellsOf 1 ("a||b".toList)).1 = [dataCellNode 1 ['a'], dataCellNode 1 ['b']] :=
  ⟨by decide, by decide, rfl⟩

/-- C9: the inline parser has no mention pattern: a token of the form
[~identifier] is taken by the simple-link pattern and becomes a text node
reading the identifier with a tilde, carrying a link mark whose href is
that same text; no mention node is ever produced. -/
theorem C9_mention_parsed_as_link :
    parseInlineContent 1 ("[~bob]".toList)
      = ([ADFNode.text "~bob".toList [Mark.link "~bob".toList]], []) := rfl

/-- C10: the inline content parser returns an empty node sequence exactly
for whitespace-only (or empty) input; on any other input for which the
scan loop contributes no node it falls back to a single plain text node
carrying the whole input. -/
theorem C10_inline_nonempty_fallback (ln : Nat) (text : Str) :
    ((parseInlineContent ln text).1 = [] ↔ text.all isPySpace = true)
    ∧ ((inlineLoop ln text.length text).1 = [] → text.all isPySpace = false →
        (parseInlineContent ln text).1 = [ADFNode.text text []]) := by
  have hiff := pyStrip_isEmpty_iff text
  cases hs : (pyStrip text).isEmpty with
  | true =>
    have hall : text.all isPySpace = true := hiff.mp hs
    refine ⟨⟨fun _ => hall, fun _ => ?_⟩, fun _ hfalse => ?_⟩
    · simp [parseInlineContent, hs]
    · rw [hall] at hfalse
      cases hfalse
  | false =>
    have hall : text.all isPySpace = false := by
      cases hv : text.all isPySpace with
      | false => rfl
      | true =>
        rw [hiff.mpr hv] at hs
        cases hs
    refine ⟨⟨fun h1 => ?_, fun h2 => ?_⟩, fun hloop _ => ?_⟩
    · exfalso
      simp only [parseInlineContent, hs, Bool.false_eq_true, if_false] at h1
      by_cases hr : (inlineLoop ln text.length text).1.isEmpty = true
      · rw [if_pos hr] at h1
        cases h1
      · rw [if_neg hr] at h1
        exact hr (by simp [h1])
    · rw [h2] at hall
      cases hall
    · simp [parseInlineContent, hs, hloop]
